import Mathlib

/-
Verification development for the BadgerDB buffer manager (src/src/buffer.cpp).

The C++ class BufMgr is embedded shallowly: the mutable object state becomes
the structure BufState, each member function becomes a Lean function from
BufState to a pair of the post-state and an Except-style outcome (a thrown
C++ exception is an error outcome; the post-state is the object state at the
moment of the throw, exactly as a C++ caller would observe it after catching).

Collaborators that live outside src/ are modelled from the spec:
- BufDesc::Set and BufDesc::Clear (declared in buffer.h, not in src/) are
  modelled from spec section 4.1.
- The hash table BufHashTbl (bufHashTbl.cpp, not in src/) is modelled from
  spec section 4.2 as a unique-key association list with insert / lookup /
  remove, where lookup and remove fail when the key is absent and insert
  fails on a duplicate key.
- The File collaborator (spec section 6) is modelled as a per-file monotone
  page counter: allocatePage returns the next page id of the file,
  readPage(pageId) succeeds exactly when the page id has been allocated
  (the spec says a file read "fails if absent"), writePage and deletePage
  are recorded in event logs.

Machine integers (uint32_t) are modelled as Nat: no operation in the claims
can overflow for any realistic call sequence, and the one subtraction
numBufs - 1 agrees with C++ unsigned arithmetic whenever numBufs is at
least 1, which every theorem below assumes where it matters.
-/

namespace BadgerDB

/-- Descriptor of one buffer frame, mirroring class BufDesc of buffer.h.
The owning file is an identity (File pointer in C++); none models NULL. -/
structure BufDesc where
  frameNo : Nat
  file : Option Nat
  pageNo : Nat
  valid : Bool
  pinCnt : Nat
  dirty : Bool
  refbit : Bool
deriving Repr, DecidableEq

/-- Default-constructed descriptor. Modelled from the spec: section 4.1 gives
Clear semantics (invalid, pinCount 0, dirty false, refbit false, owner none);
buffer.h is not in src/, so the default construction follows the same
all-clear state required by the data-model invariant of section 3. -/
def defaultDesc : BufDesc :=
  { frameNo := 0, file := none, pageNo := 0, valid := false,
    pinCnt := 0, dirty := false, refbit := false }

/-- Modelled from the spec: BufDesc::Clear of section 4.1 (buffer.h is not in
src/): mark invalid, pinCount 0, dirty false, refbit false, owner none. The
page id becomes meaningless; it is reset to 0 here. -/
def BufDesc.Clear (d : BufDesc) : BufDesc :=
  { d with
    file := none
    pageNo := 0
    valid := false
    pinCnt := 0
    dirty := false
    refbit := false }

/-- Modelled from the spec: BufDesc::Set of section 4.1 (buffer.h is not in
src/): mark valid, pinCount 1, refbit true, dirty false, owner and page id
as given. -/
def BufDesc.Set (d : BufDesc) (f : Nat) (p : Nat) : BufDesc :=
  { d with
    file := some f
    pageNo := p
    valid := true
    pinCnt := 1
    dirty := false
    refbit := true }

/-- Hash table key: (file identity, page number). The file component is an
Option because allocBuf removes with the descriptor's stored File pointer. -/
abbrev HashKey := Option Nat × Nat

/-- Modelled from the spec: BufHashTbl::lookup of section 4.2 (bufHashTbl.cpp
is not in src/), as first-match search of an association list. -/
def htLookup : List (HashKey × Nat) → HashKey → Option Nat
  | [], _ => none
  | e :: t, k => if e.1 = k then some e.2 else htLookup t k

/-- Modelled from the spec: BufHashTbl::remove of section 4.2, dropping every
entry with the given key (call sites ensure keys are unique). -/
def htRemove : List (HashKey × Nat) → HashKey → List (HashKey × Nat)
  | [], _ => []
  | e :: t, k => if e.1 = k then htRemove t k else e :: htRemove t k

/-- Modelled from the spec: BufHashTbl::insert of section 4.2; the duplicate
check is performed at each call site before consing. -/
def htInsert (ht : List (HashKey × Nat)) (k : HashKey) (v : Nat) :
    List (HashKey × Nat) :=
  (k, v) :: ht

/-- Next page id the File collaborator would hand out for a file (spec
section 6, allocatePage); files absent from the list have allocated nothing. -/
def filePages : List (Nat × Nat) → Nat → Nat
  | [], _ => 0
  | (g, n) :: r, f => if g = f then n else filePages r f

/-- Advance a file's page counter after File::allocatePage. -/
def bumpFilePages : List (Nat × Nat) → Nat → List (Nat × Nat)
  | [], f => [(f, 1)]
  | (g, n) :: r, f => if g = f then (g, n + 1) :: r else (g, n) :: bumpFilePages r f

/-- Errors of the error taxonomy (spec section 7) plus the internal signals:
each constructor is one C++ exception class thrown by buffer.cpp or a
collaborator. outOfFuel is an artifact of the bounded recursion used for the
clock loop and is never produced with the fuel allocBuf supplies. -/
inductive BufError where
  | bufferExceeded
  | pageNotPinned (file : Nat) (pageNo : Nat) (frameNo : Nat)
  | pagePinned (file : Nat) (pageNo : Nat) (frameNo : Nat)
  | badBuffer (frameNo : Nat)
  | hashNotFound
  | duplicateKey
  | invalidPage
  | outOfFuel
deriving Repr, DecidableEq

/-- Decidable equality on Except, so concrete outcomes can be checked by
evaluation. -/
instance instDecEqExcept {e a : Type} [DecidableEq e] [DecidableEq a] :
    DecidableEq (Except e a)
  | .error x, .error y =>
    if h : x = y then .isTrue (by rw [h])
    else .isFalse (fun hc => h (Except.error.inj hc))
  | .error _, .ok _ => .isFalse (fun hc => Except.noConfusion hc)
  | .ok _, .error _ => .isFalse (fun hc => Except.noConfusion hc)
  | .ok x, .ok y =>
    if h : x = y then .isTrue (by rw [h])
    else .isFalse (fun hc => h (Except.ok.inj hc))


/-- Whole-manager state: the BufMgr members (bufDescTable, clockHand,
hashTable, numBufs) plus the modelled File collaborator state (per-file page
counters) and event logs recording writePage and deletePage calls. The page
contents of bufPool are not modelled: no claim depends on page bytes. -/
structure BufState where
  numBufs : Nat
  bufDescTable : List BufDesc
  clockHand : Nat
  hashTable : List (HashKey × Nat)
  nextPageId : List (Nat × Nat)
  writeLog : List (Option Nat × Nat)
  deleteLog : List (Nat × Nat)
deriving Repr, DecidableEq

/-- Read a frame descriptor (bufDescTable[i]). -/
def BufState.getDesc (s : BufState) (i : Nat) : BufDesc :=
  s.bufDescTable.getD i defaultDesc

/-- Write a frame descriptor (bufDescTable[i] = d). -/
def BufState.setDesc (s : BufState) (i : Nat) (d : BufDesc) : BufState :=
  { s with bufDescTable := s.bufDescTable.set i d }

/-- BufMgr::advanceClock (buffer.cpp lines 84-92): advance the hand with
wraparound at numBufs. -/
def BufState.advanceClock (s : BufState) : BufState :=
  if s.clockHand = s.numBufs - 1 then { s with clockHand := 0 }
  else { s with clockHand := s.clockHand + 1 }

/-- Victim processing inside the allocBuf loop (buffer.cpp lines 130-141):
when the victim is dirty, clear its dirty bit and write the page back
through the owning file; then remove the victim's hash entry, tolerating
absence. The descriptor is NOT cleared here: the C++ loop returns directly
from inside the while, so the victim keeps valid, owner and page id. -/
def victimStep (sA : BufState) (frame : Nat) : BufState :=
  let d := sA.getDesc frame
  let sB :=
    if d.dirty = true then
      { sA.setDesc frame { d with dirty := false } with
          writeLog := sA.writeLog ++ [(d.file, d.pageNo)] }
    else sA
  { sB with hashTable := htRemove sB.hashTable (d.file, d.pageNo) }

/-- Loop body of BufMgr::allocBuf (buffer.cpp lines 104-155), recursing on
fuel. The C++ while loop runs while pincount <= numBufs - 1; each iteration
advances the clock, selects an invalid frame immediately, clears a set refbit
and continues, counts a pinned frame and continues, or takes a valid
unpinned refbit-clear frame as victim (writing it back first when dirty and
removing its hash entry, the removal tolerating absence). When the loop
exits, pincount > numBufs - 1 always holds, so BufferExceededException is
thrown; the Clear() and frame assignment after the throw (lines 151-154 of
the source) are dead code, kept here in the unreachable final branch. -/
def allocBufLoop (s : BufState) (pincount : Nat) : Nat → BufState × Except BufError Nat
  | 0 => (s, .error .outOfFuel)
  | fuel + 1 =>
    if pincount ≤ s.numBufs - 1 then
      let sA := s.advanceClock
      let frame := sA.clockHand
      let d := sA.getDesc frame
      if d.valid = false then
        (sA, .ok frame)
      else if d.refbit = true then
        allocBufLoop (sA.setDesc frame { d with refbit := false }) pincount fuel
      else if d.pinCnt > 0 then
        allocBufLoop sA (pincount + 1) fuel
      else
        (victimStep sA frame, .ok frame)
    else if s.numBufs - 1 < pincount then
      (s, .error .bufferExceeded)
    else
      (s.setDesc s.clockHand ((s.getDesc s.clockHand).Clear),
        .ok (s.getDesc s.clockHand).frameNo)

/-- BufMgr::allocBuf. The fuel 2 * numBufs + 2 bounds the loop: refbits are
only ever cleared inside the loop (at most numBufs such iterations) and
pincount grows past numBufs - 1 after at most numBufs busy iterations. -/
def allocBuf (s : BufState) : BufState × Except BufError Nat :=
  allocBufLoop s 0 (2 * s.numBufs + 2)

/-- Whether a page currently exists in a file, for the modelled File
collaborator: spec section 6 says readPage "fails if absent". -/
abbrev pageOnDisk (s : BufState) (f : Nat) (p : Nat) : Prop :=
  p < filePages s.nextPageId f

/-- Shared tail of the two cache-fill paths (readPage case 1 and allocPage):
insert the new index entry for (file, page) at the chosen frame, then Set the
frame's descriptor. -/
def fillState (s1 : BufState) (v f p : Nat) : BufState :=
  let s2 := { s1 with hashTable := htInsert s1.hashTable (some f, p) v }
  s2.setDesc v ((s2.getDesc v).Set f p)

/-- Clear a frame's descriptor and remove a hash entry: the combined state
effect of the paired Clear and remove in disposePage (Clear first, then
remove) and flushFile (remove first, then Clear); the two orders leave the
same state because the two fields are independent. -/
def clearAndRemove (s : BufState) (i : Nat) (k : HashKey) : BufState :=
  { s.setDesc i ((s.getDesc i).Clear) with hashTable := htRemove s.hashTable k }

/-- BufMgr::readPage (buffer.cpp lines 175-202). On an index hit: set refbit,
increment the pin count, return the frame. On a miss: allocBuf, read the page
from the file, insert the index entry, Set the descriptor. The inner C++
catch swallows exactly BufferExceededException (the call then returns
normally with no page, modelled as ok none); any other failure inside the
miss path (the file read of an absent page, a duplicate insert) propagates,
because an exception thrown inside a catch handler is not caught by the
sibling handlers of the same try. -/
def readPage (s : BufState) (f : Nat) (p : Nat) :
    BufState × Except BufError (Option Nat) :=
  match htLookup s.hashTable (some f, p) with
  | some frameNo =>
    let d := s.getDesc frameNo
    (s.setDesc frameNo { d with refbit := true, pinCnt := d.pinCnt + 1 },
      .ok (some frameNo))
  | none =>
    match allocBuf s with
    | (s1, .error .bufferExceeded) => (s1, .ok none)
    | (s1, .error e) => (s1, .error e)
    | (s1, .ok frameNo) =>
      if p < filePages s1.nextPageId f then
        match htLookup s1.hashTable (some f, p) with
        | some _ => (s1, .error .duplicateKey)
        | none => (fillState s1 frameNo f p, .ok (some frameNo))
      else (s1, .error .invalidPage)

/-- BufMgr::unPinPage (buffer.cpp lines 215-239). A lookup miss is swallowed
(do nothing). On a hit the dirty bit is set first when requested, then the
pin count is checked: zero raises PageNotPinnedException, otherwise the pin
count is decremented. -/
def unpinState (s : BufState) (frameNo : Nat) (dirty : Bool) : BufState :=
  if dirty = true then
    s.setDesc frameNo { s.getDesc frameNo with dirty := true }
  else s

def unPinPage (s : BufState) (f : Nat) (p : Nat) (dirty : Bool) :
    BufState × Except BufError Unit :=
  match htLookup s.hashTable (some f, p) with
  | none => (s, .ok ())
  | some frameNo =>
    let s1 := unpinState s frameNo dirty
    let d1 := s1.getDesc frameNo
    if d1.pinCnt = 0 then
      (s1, .error (.pageNotPinned f p frameNo))
    else
      (s1.setDesc frameNo { d1 with pinCnt := d1.pinCnt - 1 }, .ok ())

/-- BufMgr::allocPage (buffer.cpp lines 253-275). file->allocatePage() runs
first (the disk allocation happens unconditionally), then allocBuf; an
allocBuf failure propagates uncaught. On success the new entry is inserted
(the duplicate check models the insert that would throw) and the descriptor
is Set; the call returns the new page number and frame. -/
def allocPage (s : BufState) (f : Nat) :
    BufState × Except BufError (Nat × Nat) :=
  let pn := filePages s.nextPageId f
  let s0 := { s with nextPageId := bumpFilePages s.nextPageId f }
  match allocBuf s0 with
  | (s1, .error e) => (s1, .error e)
  | (s1, .ok frameNo) =>
    match htLookup s1.hashTable (some f, pn) with
    | some _ => (s1, .error .duplicateKey)
    | none => (fillState s1 frameNo f pn, .ok (pn, frameNo))

/-- One iteration of the flushFile scan (buffer.cpp lines 290-312): for a
valid frame owned by the file, write back and clear dirty when dirty, then
throw PagePinnedException when still pinned, otherwise remove the hash entry
(this remove is not wrapped in a try, so absence raises HashNotFound) and
Clear the descriptor. -/
def flushWriteBack (s : BufState) (i : Nat) : BufState :=
  if (s.getDesc i).dirty = true then
    { s.setDesc i { s.getDesc i with dirty := false } with
        writeLog := s.writeLog ++ [((s.getDesc i).file, (s.getDesc i).pageNo)] }
  else s

def flushStep (f : Nat) (s : BufState) (i : Nat) : BufState × Except BufError Unit :=
  let d := s.getDesc i
  if d.file = some f ∧ d.valid = true then
    let s1 := flushWriteBack s i
    let d1 := s1.getDesc i
    if d1.pinCnt ≠ 0 then
      (s1, .error (.pagePinned f d1.pageNo d1.frameNo))
    else
      match htLookup s1.hashTable (some f, d1.pageNo) with
      | none => (s1, .error .hashNotFound)
      | some _ => (clearAndRemove s1 i (some f, d1.pageNo), .ok ())
  else (s, .ok ())

/-- The flushFile for loop (buffer.cpp lines 290-319): run flushStep for each
index, then re-read the descriptor and throw BadBufferException when it still
claims ownership of the file while being invalid (the second if of the C++
body, evaluated after the first block possibly cleared the descriptor). -/
def flushLoop (f : Nat) : BufState → Nat → Nat → BufState × Except BufError Unit
  | s, _, 0 => (s, .ok ())
  | s, i, n + 1 =>
    match flushStep f s i with
    | (s1, .error e) => (s1, .error e)
    | (s1, .ok _) =>
      let d2 := s1.getDesc i
      if d2.file = some f ∧ d2.valid = false then
        (s1, .error (.badBuffer d2.frameNo))
      else flushLoop f s1 (i + 1) n

/-- BufMgr::flushFile (buffer.cpp lines 287-320): scan all numBufs frames. -/
def flushFile (s : BufState) (f : Nat) : BufState × Except BufError Unit :=
  flushLoop f s 0 s.numBufs

/-- BufMgr::disposePage (buffer.cpp lines 330-347). When the page is cached
the descriptor is cleared and the entry removed (a HashNotFound from either
lookup or remove is swallowed by the catch; after a successful lookup the
remove cannot fail, so the filter-based remove is exact); afterwards
file->deletePage(PageNo) is always called, recorded in the delete log. -/
def disposePage (s : BufState) (f : Nat) (p : Nat) : BufState × Except BufError Unit :=
  let s1 :=
    match htLookup s.hashTable (some f, p) with
    | some frameNum => clearAndRemove s frameNum (some f, p)
    | none => s
  ({ s1 with deleteLog := s1.deleteLog ++ [(f, p)] }, .ok ())

/-- Frame table of a freshly constructed BufMgr (buffer.cpp lines 49-53):
frameNo set to the index, valid false, the remaining fields default. -/
def mkTable : Nat → Nat → List BufDesc
  | _, 0 => []
  | i, n + 1 => { defaultDesc with frameNo := i } :: mkTable (i + 1) n

/-- BufMgr::BufMgr (buffer.cpp lines 45-61): bufs frames, empty hash table,
clockHand = bufs - 1. The modelled collaborator state starts empty. -/
def BufMgrInit (bufs : Nat) : BufState :=
  { numBufs := bufs, bufDescTable := mkTable 0 bufs, clockHand := bufs - 1,
    hashTable := [], nextPageId := [], writeLog := [], deleteLog := [] }

/-- One public operation of the buffer manager interface. -/
inductive Op where
  | readPage (f p : Nat)
  | unPinPage (f p : Nat) (dirty : Bool)
  | allocPage (f : Nat)
  | disposePage (f p : Nat)
  | flushFile (f : Nat)
deriving Repr, DecidableEq

/-- Run one public operation, keeping the post-state and the outcome. -/
def applyOp (s : BufState) : Op → BufState × Except BufError Unit
  | .readPage f p => ((readPage s f p).1, (readPage s f p).2.map fun _ => ())
  | .unPinPage f p d => unPinPage s f p d
  | .allocPage f => ((allocPage s f).1, (allocPage s f).2.map fun _ => ())
  | .disposePage f p => disposePage s f p
  | .flushFile f => flushFile s f

/-- State after a sequence of public operations (each op leaves its
post-state behind whether it succeeded or threw, as in C++). -/
def execOps (s : BufState) : List Op → BufState
  | [] => s
  | op :: ops => execOps (applyOp s op).1 ops

/-- Whether an outcome is a failed file read (InvalidPageException from the
File collaborator, spec section 6: a read "fails if absent"). -/
def notInvalidPage : Except BufError Unit → Bool
  | .error .invalidPage => false
  | _ => true

/-- A run is good when no operation in it fails a disk read: every readPage
call requests a page that is cached or exists in the file. -/
def goodRun : BufState → List Op → Bool
  | _, [] => true
  | s, op :: ops => notInvalidPage (applyOp s op).2 && goodRun (applyOp s op).1 ops

/-- Core structural invariant: at least one frame; the descriptor table has
numBufs entries; the clock hand is in range; every hash entry points at a
valid in-range frame holding exactly the entry's key; every invalid frame is
fully clean with no owner. -/
abbrev Inv (s : BufState) : Prop :=
  0 < s.numBufs ∧
  s.bufDescTable.length = s.numBufs ∧
  s.clockHand < s.numBufs ∧
  (∀ e ∈ s.hashTable, e.2 < s.numBufs ∧ (s.getDesc e.2).valid = true ∧
    (s.getDesc e.2).file = e.1.1 ∧ (s.getDesc e.2).pageNo = e.1.2) ∧
  (∀ i, i < s.numBufs → (s.getDesc i).valid = false →
    (s.getDesc i).pinCnt = 0 ∧ (s.getDesc i).dirty = false ∧
    (s.getDesc i).refbit = false ∧ (s.getDesc i).file = none)

/-- Full invariant: Inv plus the converse correspondence (every valid frame's
key is indexed and maps back to that frame) and the disk bound (every cached
page has been allocated in its file). -/
abbrev InvFull (s : BufState) : Prop :=
  Inv s ∧
  (∀ i, i < s.numBufs → (s.getDesc i).valid = true →
    htLookup s.hashTable ((s.getDesc i).file, (s.getDesc i).pageNo) = some i) ∧
  (∀ e ∈ s.hashTable, e.1.1 ≠ none ∧ e.1.2 < filePages s.nextPageId (e.1.1.getD 0))

/-! Basic lemmas about list access, the hash table model, the file
collaborator model and single-field state updates. -/

theorem getD_set_self {α : Type} :
    ∀ (l : List α) (i : Nat) (d e : α), i < l.length → (l.set i d).getD i e = d
  | [], _, _, _, h => by simp at h
  | _ :: _, 0, _, _, _ => rfl
  | _ :: t, i + 1, d, e, h => by
    have ih := getD_set_self t i d e (Nat.lt_of_succ_lt_succ h)
    simpa [List.getD, List.set] using ih

theorem getD_set_ne {α : Type} :
    ∀ (l : List α) (i j : Nat) (d e : α), i ≠ j → (l.set i d).getD j e = l.getD j e
  | [], _, _, _, _, _ => rfl
  | _ :: _, 0, 0, _, _, h => absurd rfl h
  | _ :: _, 0, _ + 1, _, _, _ => rfl
  | _ :: _, _ + 1, 0, _, _, _ => rfl
  | _ :: t, i + 1, j + 1, d, e, h => by
    have ih := getD_set_ne t i j d e (fun hc => h (by omega))
    simpa [List.getD, List.set] using ih

theorem getDesc_setDesc_self (s : BufState) (i : Nat) (d : BufDesc)
    (h : i < s.bufDescTable.length) : (s.setDesc i d).getDesc i = d :=
  getD_set_self _ _ _ _ h

theorem getDesc_setDesc_ne (s : BufState) (i j : Nat) (d : BufDesc)
    (h : i ≠ j) : (s.setDesc i d).getDesc j = s.getDesc j :=
  getD_set_ne _ _ _ _ _ h

@[simp] theorem setDesc_numBufs (s : BufState) (i : Nat) (d : BufDesc) :
    (s.setDesc i d).numBufs = s.numBufs := rfl

@[simp] theorem setDesc_clockHand (s : BufState) (i : Nat) (d : BufDesc) :
    (s.setDesc i d).clockHand = s.clockHand := rfl

@[simp] theorem setDesc_hashTable (s : BufState) (i : Nat) (d : BufDesc) :
    (s.setDesc i d).hashTable = s.hashTable := rfl

@[simp] theorem setDesc_nextPageId (s : BufState) (i : Nat) (d : BufDesc) :
    (s.setDesc i d).nextPageId = s.nextPageId := rfl

@[simp] theorem setDesc_writeLog (s : BufState) (i : Nat) (d : BufDesc) :
    (s.setDesc i d).writeLog = s.writeLog := rfl

@[simp] theorem setDesc_deleteLog (s : BufState) (i : Nat) (d : BufDesc) :
    (s.setDesc i d).deleteLog = s.deleteLog := rfl

@[simp] theorem setDesc_length (s : BufState) (i : Nat) (d : BufDesc) :
    (s.setDesc i d).bufDescTable.length = s.bufDescTable.length :=
  List.length_set ..

@[simp] theorem advanceClock_numBufs (s : BufState) :
    s.advanceClock.numBufs = s.numBufs := by
  unfold BufState.advanceClock; split <;> rfl

@[simp] theorem advanceClock_bufDescTable (s : BufState) :
    s.advanceClock.bufDescTable = s.bufDescTable := by
  unfold BufState.advanceClock; split <;> rfl

@[simp] theorem advanceClock_hashTable (s : BufState) :
    s.advanceClock.hashTable = s.hashTable := by
  unfold BufState.advanceClock; split <;> rfl

@[simp] theorem advanceClock_nextPageId (s : BufState) :
    s.advanceClock.nextPageId = s.nextPageId := by
  unfold BufState.advanceClock; split <;> rfl

@[simp] theorem advanceClock_writeLog (s : BufState) :
    s.advanceClock.writeLog = s.writeLog := by
  unfold BufState.advanceClock; split <;> rfl

@[simp] theorem advanceClock_deleteLog (s : BufState) :
    s.advanceClock.deleteLog = s.deleteLog := by
  unfold BufState.advanceClock; split <;> rfl

@[simp] theorem advanceClock_getDesc (s : BufState) (i : Nat) :
    s.advanceClock.getDesc i = s.getDesc i := by
  unfold BufState.getDesc; rw [advanceClock_bufDescTable]

theorem advanceClock_lt (s : BufState) (h0 : 0 < s.numBufs)
    (h : s.clockHand < s.numBufs) : s.advanceClock.clockHand < s.numBufs := by
  unfold BufState.advanceClock
  split
  · simpa using h0
  · rename_i hne
    show s.clockHand + 1 < s.numBufs
    omega

theorem htLookup_mem :
    ∀ (ht : List (HashKey × Nat)) (k : HashKey) (v : Nat),
      htLookup ht k = some v → (k, v) ∈ ht
  | [], _, _, h => by simp [htLookup] at h
  | (k1, v1) :: t, k, v, h => by
    by_cases hk : k1 = k
    · have h2 : v1 = v := by simpa [htLookup, hk] using h
      subst hk; subst h2
      exact List.mem_cons_self _ _
    · have h2 : htLookup t k = some v := by simpa [htLookup, hk] using h
      exact List.mem_cons_of_mem _ (htLookup_mem t k v h2)

theorem htLookup_eq_none :
    ∀ (ht : List (HashKey × Nat)) (k : HashKey),
      htLookup ht k = none ↔ ∀ e ∈ ht, e.1 ≠ k
  | [], k => by simp [htLookup]
  | e :: t, k => by
    by_cases hk : e.1 = k
    · simp [htLookup, hk]
    · simp [htLookup, hk, htLookup_eq_none t k]

theorem htRemove_sub :
    ∀ (ht : List (HashKey × Nat)) (k : HashKey) (e : HashKey × Nat),
      e ∈ htRemove ht k → e ∈ ht
  | [], _, _, h => by simp [htRemove] at h
  | a :: t, k, e, h => by
    by_cases hk : a.1 = k
    · rw [htRemove, if_pos hk] at h
      exact List.mem_cons_of_mem _ (htRemove_sub t k e h)
    · rw [htRemove, if_neg hk] at h
      rcases List.mem_cons.mp h with he | ht2
      · exact he ▸ List.mem_cons_self _ _
      · exact List.mem_cons_of_mem _ (htRemove_sub t k e ht2)

theorem htRemove_mem_ne :
    ∀ (ht : List (HashKey × Nat)) (k : HashKey) (e : HashKey × Nat),
      e ∈ htRemove ht k → e.1 ≠ k
  | [], _, _, h => by simp [htRemove] at h
  | a :: t, k, e, h => by
    by_cases hk : a.1 = k
    · rw [htRemove, if_pos hk] at h
      exact htRemove_mem_ne t k e h
    · rw [htRemove, if_neg hk] at h
      rcases List.mem_cons.mp h with he | ht2
      · exact he ▸ hk
      · exact htRemove_mem_ne t k e ht2

theorem htLookup_remove_self (ht : List (HashKey × Nat)) (k : HashKey) :
    htLookup (htRemove ht k) k = none :=
  (htLookup_eq_none _ _).mpr (fun e he => htRemove_mem_ne ht k e he)

theorem htLookup_remove_ne :
    ∀ (ht : List (HashKey × Nat)) (k kq : HashKey), kq ≠ k →
      htLookup (htRemove ht k) kq = htLookup ht kq
  | [], _, _, _ => rfl
  | a :: t, k, kq, h => by
    by_cases hek : a.1 = k
    · have hq : ¬ a.1 = kq := by rw [hek]; exact fun hc => h hc.symm
      rw [htRemove, if_pos hek, htLookup, if_neg hq]
      exact htLookup_remove_ne t k kq h
    · by_cases heq : a.1 = kq
      · rw [htRemove, if_neg hek, htLookup, if_pos heq, htLookup, if_pos heq]
      · rw [htRemove, if_neg hek, htLookup, if_neg heq, htLookup, if_neg heq]
        exact htLookup_remove_ne t k kq h

theorem htLookup_none_of_sub {ht1 ht2 : List (HashKey × Nat)} {k : HashKey}
    (hsub : ∀ e ∈ ht2, e ∈ ht1) (h : htLookup ht1 k = none) :
    htLookup ht2 k = none :=
  (htLookup_eq_none _ _).mpr
    (fun e he => (htLookup_eq_none _ _).mp h e (hsub e he))

theorem filePages_bump :
    ∀ (l : List (Nat × Nat)) (f g : Nat),
      filePages (bumpFilePages l f) g =
        if g = f then filePages l g + 1 else filePages l g
  | [], f, g => by
    by_cases h : g = f
    · subst h; simp [bumpFilePages, filePages]
    · have hfg : ¬ f = g := fun hc => h hc.symm
      simp [bumpFilePages, filePages, h, hfg]
  | (a, n) :: r, f, g => by
    by_cases haf : a = f
    · subst haf
      by_cases hga : g = a
      · subst hga; simp [bumpFilePages, filePages]
      · have hag : ¬ a = g := fun hc => hga hc.symm
        simp [bumpFilePages, filePages, hga, hag]
    · by_cases hga : g = a
      · subst hga
        simp [bumpFilePages, filePages, haf]
      · have hag : ¬ a = g := fun hc => hga hc.symm
        simp [bumpFilePages, filePages, haf, hag, filePages_bump r f g]

theorem mkTable_length : ∀ (i n : Nat), (mkTable i n).length = n
  | _, 0 => rfl
  | i, n + 1 => by simp [mkTable, mkTable_length (i + 1) n]

theorem mkTable_getD :
    ∀ (n i j : Nat) (e : BufDesc), j < n →
      (mkTable i n).getD j e = { defaultDesc with frameNo := i + j }
  | 0, _, _, _, h => by omega
  | n + 1, i, 0, e, _ => by simp [mkTable, List.getD]
  | n + 1, i, j + 1, e, h => by
    have ih := mkTable_getD n (i + 1) j e (by omega)
    have : i + 1 + j = i + (j + 1) := by omega
    rw [this] at ih
    simpa [mkTable, List.getD] using ih

/-- Descriptor relation after a failed allocation sweep: every field is
unchanged except that the refbit may have been cleared (never set). -/
def sameExceptRef (d dq : BufDesc) : Prop :=
  dq.frameNo = d.frameNo ∧ dq.file = d.file ∧ dq.pageNo = d.pageNo ∧
  dq.valid = d.valid ∧ dq.pinCnt = d.pinCnt ∧ dq.dirty = d.dirty ∧
  (dq.refbit = true → d.refbit = true)

theorem sameExceptRef_refl (d : BufDesc) : sameExceptRef d d :=
  ⟨rfl, rfl, rfl, rfl, rfl, rfl, fun h => h⟩

theorem sameExceptRef_trans {a b c : BufDesc}
    (h1 : sameExceptRef a b) (h2 : sameExceptRef b c) : sameExceptRef a c := by
  obtain ⟨f1, l1, p1, v1, c1, d1, r1⟩ := h1
  obtain ⟨f2, l2, p2, v2, c2, d2, r2⟩ := h2
  exact ⟨f2.trans f1, l2.trans l1, p2.trans p1, v2.trans v1, c2.trans c1,
    d2.trans d1, fun h => r1 (r2 h)⟩

theorem set_of_le {α : Type} :
    ∀ (l : List α) (i : Nat) (a : α), l.length ≤ i → l.set i a = l
  | [], _, _, _ => rfl
  | _ :: _, 0, _, h => by simp at h
  | b :: t, i + 1, a, h => by
    simp only [List.set]
    rw [set_of_le t i a (by simpa using h)]

theorem getDesc_setDesc (s : BufState) (i j : Nat) (d : BufDesc) :
    (s.setDesc i d).getDesc j =
      if j = i ∧ i < s.bufDescTable.length then d else s.getDesc j := by
  by_cases hj : j = i
  · subst hj
    by_cases hb : j < s.bufDescTable.length
    · rw [if_pos ⟨rfl, hb⟩]
      exact getDesc_setDesc_self s j d hb
    · rw [if_neg (fun hc => hb hc.2)]
      show (s.setDesc j d).getDesc j = s.getDesc j
      unfold BufState.setDesc BufState.getDesc
      rw [set_of_le _ _ _ (by omega)]
  · rw [if_neg (fun hc => hj hc.1)]
    exact getDesc_setDesc_ne s i j d (fun hc => hj hc.symm)

/-- State relation left behind by a failed (or in-progress) allocation
sweep: nothing observable changed except possibly cleared refbits and the
clock hand. -/
def stableFrom (s s1 : BufState) : Prop :=
  s1.numBufs = s.numBufs ∧
  s1.bufDescTable.length = s.bufDescTable.length ∧
  s1.hashTable = s.hashTable ∧
  s1.nextPageId = s.nextPageId ∧
  s1.writeLog = s.writeLog ∧
  s1.deleteLog = s.deleteLog ∧
  (0 < s.numBufs → s.clockHand < s.numBufs → s1.clockHand < s1.numBufs) ∧
  (∀ i, sameExceptRef (s.getDesc i) (s1.getDesc i))

theorem stableFrom_refl (s : BufState) : stableFrom s s :=
  ⟨rfl, rfl, rfl, rfl, rfl, rfl, fun _ h => h,
    fun i => sameExceptRef_refl (s.getDesc i)⟩

theorem stableFrom_trans {a b c : BufState}
    (h1 : stableFrom a b) (h2 : stableFrom b c) : stableFrom a c := by
  obtain ⟨n1, l1, h1t, p1, w1, d1, k1, g1⟩ := h1
  obtain ⟨n2, l2, h2t, p2, w2, d2, k2, g2⟩ := h2
  refine ⟨n2.trans n1, l2.trans l1, h2t.trans h1t, p2.trans p1, w2.trans w1,
    d2.trans d1, ?_, fun i => sameExceptRef_trans (g1 i) (g2 i)⟩
  intro h0 hh
  exact k2 (by rw [n1]; exact h0) (k1 h0 hh)

theorem advanceClock_stable (s : BufState) : stableFrom s s.advanceClock := by
  refine ⟨by simp, by simp, by simp, by simp, by simp, by simp, ?_, ?_⟩
  · intro h0 hh
    rw [advanceClock_numBufs]
    exact advanceClock_lt s h0 hh
  · intro i
    rw [advanceClock_getDesc]
    exact sameExceptRef_refl _

theorem clearRef_stable (s : BufState) (i : Nat) :
    stableFrom s (s.setDesc i { s.getDesc i with refbit := false }) := by
  refine ⟨rfl, by simp, rfl, rfl, rfl, rfl, fun _ h => h, ?_⟩
  intro j
  rw [getDesc_setDesc]
  by_cases hj : j = i ∧ i < s.bufDescTable.length
  · rw [if_pos hj]
    rcases hj with ⟨hj, _⟩
    subst hj
    exact ⟨rfl, rfl, rfl, rfl, rfl, rfl, fun h => by simp at h⟩
  · rw [if_neg hj]
    exact sameExceptRef_refl _

/-- Whenever the allocation sweep ends in an error (a full sweep of pinned
frames, or fuel exhaustion of the model), the state left behind satisfies
stableFrom: only refbits were possibly cleared and the clock hand moved. -/
theorem allocBufLoop_error_spec :
    ∀ (fuel : Nat) (s : BufState) (pc : Nat) (s1 : BufState) (e : BufError),
      allocBufLoop s pc fuel = (s1, .error e) → stableFrom s s1
  | 0, s, pc, s1, e, h => by
    simp only [allocBufLoop] at h
    obtain ⟨h1, _⟩ := Prod.mk.inj h
    cases h1
    exact stableFrom_refl s
  | fuel + 1, s, pc, s1, e, h => by
    simp only [allocBufLoop] at h
    by_cases hpc : pc ≤ s.numBufs - 1
    · rw [if_pos hpc] at h
      by_cases hv : (s.advanceClock.getDesc s.advanceClock.clockHand).valid = false
      · rw [if_pos hv] at h
        simp at h
      · rw [if_neg hv] at h
        by_cases hr : (s.advanceClock.getDesc s.advanceClock.clockHand).refbit = true
        · rw [if_pos hr] at h
          exact stableFrom_trans
            (stableFrom_trans (advanceClock_stable s) (clearRef_stable s.advanceClock s.advanceClock.clockHand))
            (allocBufLoop_error_spec fuel _ pc s1 e h)
        · rw [if_neg hr] at h
          by_cases hp : (s.advanceClock.getDesc s.advanceClock.clockHand).pinCnt > 0
          · rw [if_pos hp] at h
            exact stableFrom_trans (advanceClock_stable s)
              (allocBufLoop_error_spec fuel _ (pc + 1) s1 e h)
          · rw [if_neg hp] at h
            simp at h
    · rw [if_neg hpc] at h
      by_cases hgt : s.numBufs - 1 < pc
      · rw [if_pos hgt] at h
        obtain ⟨h1, _⟩ := Prod.mk.inj h
        cases h1
        exact stableFrom_refl s
      · omega

theorem Inv_advanceClock {s : BufState} (h : Inv s) : Inv s.advanceClock := by
  obtain ⟨h0, hlen, hhand, hent, hinv⟩ := h
  refine ⟨by simpa using h0, by simpa using hlen, ?_, ?_, ?_⟩
  · rw [advanceClock_numBufs]
    exact advanceClock_lt s h0 hhand
  · intro e he
    rw [advanceClock_hashTable] at he
    simpa [advanceClock_getDesc, advanceClock_numBufs] using hent e he
  · intro i hi hv
    rw [advanceClock_getDesc] at hv
    rw [advanceClock_numBufs] at hi
    simpa [advanceClock_getDesc] using hinv i hi hv

theorem Inv_clearRef {s : BufState} (h : Inv s) (i : Nat) :
    Inv (s.setDesc i { s.getDesc i with refbit := false }) := by
  obtain ⟨h0, hlen, hhand, hent, hinv⟩ := h
  have hget : ∀ j, ((s.setDesc i { s.getDesc i with refbit := false }).getDesc j).valid = (s.getDesc j).valid ∧
      ((s.setDesc i { s.getDesc i with refbit := false }).getDesc j).file = (s.getDesc j).file ∧
      ((s.setDesc i { s.getDesc i with refbit := false }).getDesc j).pageNo = (s.getDesc j).pageNo ∧
      ((s.setDesc i { s.getDesc i with refbit := false }).getDesc j).pinCnt = (s.getDesc j).pinCnt ∧
      ((s.setDesc i { s.getDesc i with refbit := false }).getDesc j).dirty = (s.getDesc j).dirty ∧
      (((s.setDesc i { s.getDesc i with refbit := false }).getDesc j).refbit = true → (s.getDesc j).refbit = true) := by
    intro j
    rw [getDesc_setDesc]
    by_cases hj : j = i ∧ i < s.bufDescTable.length
    · rw [if_pos hj]
      rcases hj with ⟨hj, _⟩
      subst hj
      exact ⟨rfl, rfl, rfl, rfl, rfl, fun hc => by simp at hc⟩
    · rw [if_neg hj]
      exact ⟨rfl, rfl, rfl, rfl, rfl, fun hc => hc⟩
  refine ⟨by simpa using h0, by simpa using hlen, by simpa using hhand, ?_, ?_⟩
  · intro e he
    rw [setDesc_hashTable] at he
    obtain ⟨hb, hv, hf, hp⟩ := hent e he
    obtain ⟨gv, gf, gp, _, _, _⟩ := hget e.2
    exact ⟨by simpa using hb, gv.trans hv, gf.trans hf, gp.trans hp⟩
  · intro j hj hv
    obtain ⟨gv, gf, gp, gc, gd, gr⟩ := hget j
    rw [gv] at hv
    obtain ⟨c1, c2, c3, c4⟩ := hinv j (by simpa using hj) hv
    refine ⟨gc.trans c1, gd.trans c2, ?_, gf.trans c4⟩
    by_cases hrb : ((s.setDesc i { s.getDesc i with refbit := false }).getDesc j).refbit = true
    · exact absurd (gr hrb) (by rw [c3]; simp)
    · simpa using hrb

theorem InvFull_advanceClock {s : BufState} (h : InvFull s) : InvFull s.advanceClock := by
  obtain ⟨hi, h4, h5⟩ := h
  refine ⟨Inv_advanceClock hi, ?_, ?_⟩
  · intro i hii hv
    rw [advanceClock_numBufs] at hii
    rw [advanceClock_getDesc] at hv
    simpa [advanceClock_getDesc, advanceClock_hashTable] using h4 i hii hv
  · intro e he
    rw [advanceClock_hashTable] at he
    simpa [advanceClock_nextPageId] using h5 e he

theorem InvFull_clearRef {s : BufState} (h : InvFull s) (i : Nat) :
    InvFull (s.setDesc i { s.getDesc i with refbit := false }) := by
  obtain ⟨hi, h4, h5⟩ := h
  refine ⟨Inv_clearRef hi i, ?_, ?_⟩
  · intro j hj hv
    rw [setDesc_numBufs] at hj
    rw [setDesc_hashTable]
    rw [getDesc_setDesc] at hv ⊢
    by_cases hcase : j = i ∧ i < s.bufDescTable.length
    · rw [if_pos hcase] at hv ⊢
      rcases hcase with ⟨hji, _⟩
      subst hji
      have hv2 : (s.getDesc j).valid = true := by simpa using hv
      simpa using h4 j hj hv2
    · rw [if_neg hcase] at hv ⊢
      exact h4 j hj hv
  · intro e he
    rw [setDesc_hashTable] at he
    simpa [setDesc_nextPageId] using h5 e he

/-- Contract of a successful allocation sweep, as used by readPage and
allocPage: sizes, page counters and the delete log are untouched; the
returned frame id is in range; the core invariant survives; the hash table
only lost entries; no surviving entry points at the returned frame; and
(under the full invariant) every other valid frame is still indexed at its
own key. -/
def allocOk (s s1 : BufState) (v : Nat) : Prop :=
  s1.numBufs = s.numBufs ∧
  s1.bufDescTable.length = s.bufDescTable.length ∧
  s1.nextPageId = s.nextPageId ∧
  s1.deleteLog = s.deleteLog ∧
  v < s.numBufs ∧
  Inv s1 ∧
  (∀ e ∈ s1.hashTable, e ∈ s.hashTable) ∧
  (∀ e ∈ s1.hashTable, e.2 ≠ v) ∧
  (InvFull s → ∀ i, i < s1.numBufs → i ≠ v → (s1.getDesc i).valid = true →
    htLookup s1.hashTable ((s1.getDesc i).file, (s1.getDesc i).pageNo) = some i)


@[simp] theorem victimStep_numBufs (sA : BufState) (f : Nat) :
    (victimStep sA f).numBufs = sA.numBufs := by
  unfold victimStep
  by_cases hd : (sA.getDesc f).dirty = true <;> simp [hd]

@[simp] theorem victimStep_clockHand (sA : BufState) (f : Nat) :
    (victimStep sA f).clockHand = sA.clockHand := by
  unfold victimStep
  by_cases hd : (sA.getDesc f).dirty = true <;> simp [hd]

@[simp] theorem victimStep_nextPageId (sA : BufState) (f : Nat) :
    (victimStep sA f).nextPageId = sA.nextPageId := by
  unfold victimStep
  by_cases hd : (sA.getDesc f).dirty = true <;> simp [hd]

@[simp] theorem victimStep_deleteLog (sA : BufState) (f : Nat) :
    (victimStep sA f).deleteLog = sA.deleteLog := by
  unfold victimStep
  by_cases hd : (sA.getDesc f).dirty = true <;> simp [hd]

theorem victimStep_bufDescTable (sA : BufState) (f : Nat) :
    (victimStep sA f).bufDescTable =
      if (sA.getDesc f).dirty = true
      then sA.bufDescTable.set f { sA.getDesc f with dirty := false }
      else sA.bufDescTable := by
  unfold victimStep
  by_cases hd : (sA.getDesc f).dirty = true <;> simp [hd, BufState.setDesc]

@[simp] theorem victimStep_length (sA : BufState) (f : Nat) :
    (victimStep sA f).bufDescTable.length = sA.bufDescTable.length := by
  rw [victimStep_bufDescTable]
  by_cases hd : (sA.getDesc f).dirty = true
  · rw [if_pos hd]; exact List.length_set ..
  · rw [if_neg hd]

theorem victimStep_hashTable (sA : BufState) (f : Nat) :
    (victimStep sA f).hashTable =
      htRemove sA.hashTable ((sA.getDesc f).file, (sA.getDesc f).pageNo) := by
  unfold victimStep
  by_cases hd : (sA.getDesc f).dirty = true <;> simp [hd]

theorem victimStep_getDesc (sA : BufState) (f j : Nat) :
    (victimStep sA f).getDesc j =
      if j = f ∧ f < sA.bufDescTable.length ∧ (sA.getDesc f).dirty = true
      then { sA.getDesc f with dirty := false }
      else sA.getDesc j := by
  unfold BufState.getDesc
  rw [victimStep_bufDescTable]
  by_cases hd : (sA.getDesc f).dirty = true
  · rw [if_pos hd]
    by_cases hj : j = f ∧ f < sA.bufDescTable.length
    · rw [if_pos ⟨hj.1, hj.2, hd⟩]
      rcases hj with ⟨hj1, hj2⟩
      subst hj1
      exact getD_set_self _ _ _ _ hj2
    · rw [if_neg (fun hc => hj ⟨hc.1, hc.2.1⟩)]
      by_cases hjf : j = f
      · subst hjf
        have hb : sA.bufDescTable.length ≤ j := by
          rcases Nat.lt_or_ge j sA.bufDescTable.length with hlt | hge
          · exact absurd ⟨rfl, hlt⟩ hj
          · exact hge
        rw [set_of_le _ _ _ hb]
      · exact getD_set_ne _ _ _ _ _ (fun hc => hjf hc.symm)
  · rw [if_neg hd, if_neg (fun hc => hd hc.2.2)]

theorem victimStep_getDesc_ne (sA : BufState) (f j : Nat) (h : j ≠ f) :
    (victimStep sA f).getDesc j = sA.getDesc j := by
  rw [victimStep_getDesc, if_neg (fun hc => h hc.1)]

theorem victimStep_getDesc_fields (sA : BufState) (f j : Nat) :
    ((victimStep sA f).getDesc j).valid = (sA.getDesc j).valid ∧
    ((victimStep sA f).getDesc j).file = (sA.getDesc j).file ∧
    ((victimStep sA f).getDesc j).pageNo = (sA.getDesc j).pageNo ∧
    ((victimStep sA f).getDesc j).pinCnt = (sA.getDesc j).pinCnt ∧
    ((victimStep sA f).getDesc j).refbit = (sA.getDesc j).refbit ∧
    ((victimStep sA f).getDesc j).frameNo = (sA.getDesc j).frameNo := by
  rw [victimStep_getDesc]
  by_cases hcase : j = f ∧ f < sA.bufDescTable.length ∧ (sA.getDesc f).dirty = true
  · rw [if_pos hcase]
    rcases hcase with ⟨hj, _, _⟩
    subst hj
    exact ⟨rfl, rfl, rfl, rfl, rfl, rfl⟩
  · rw [if_neg hcase]
    exact ⟨rfl, rfl, rfl, rfl, rfl, rfl⟩

theorem allocBufLoop_ok_spec :
    ∀ (fuel : Nat) (s : BufState) (pc : Nat) (s1 : BufState) (v : Nat),
      Inv s → allocBufLoop s pc fuel = (s1, .ok v) → allocOk s s1 v
  | 0, s, pc, s1, v, _, h => by
    simp only [allocBufLoop] at h
    exact absurd (Prod.mk.inj h).2 (by simp)
  | fuel + 1, s, pc, s1, v, hInv, h => by
    simp only [allocBufLoop] at h
    by_cases hpc : pc ≤ s.numBufs - 1
    · rw [if_pos hpc] at h
      by_cases hv : (s.advanceClock.getDesc s.advanceClock.clockHand).valid = false
      · rw [if_pos hv] at h
        obtain ⟨h1, h2⟩ := Prod.mk.inj h
        cases h1
        cases Except.ok.inj h2
        refine ⟨by simp, by simp, by simp, by simp, ?_, Inv_advanceClock hInv,
          ?_, ?_, ?_⟩
        · exact advanceClock_lt s hInv.1 hInv.2.2.1
        · intro e he
          rw [advanceClock_hashTable] at he
          exact he
        · intro e he hev
          rw [advanceClock_hashTable] at he
          have hval := (hInv.2.2.2.1 e he).2.1
          rw [advanceClock_getDesc, ← hev, hval] at hv
          exact absurd hv (by simp)
        · intro hfull i hi hne hvalid
          rw [advanceClock_numBufs] at hi
          rw [advanceClock_getDesc] at hvalid
          simp only [advanceClock_hashTable, advanceClock_getDesc]
          exact hfull.2.1 i hi hvalid
      · rw [if_neg hv] at h
        by_cases hr : (s.advanceClock.getDesc s.advanceClock.clockHand).refbit = true
        · rw [if_pos hr] at h
          obtain ⟨c1, c2, c3, c4, c5, c6, c7, c8, c9⟩ :=
            allocBufLoop_ok_spec fuel _ pc s1 v
              (Inv_clearRef (Inv_advanceClock hInv) _) h
          refine ⟨c1.trans (by simp), c2.trans (by simp), c3.trans (by simp),
            c4.trans (by simp), by simpa using c5, c6, ?_, c8, ?_⟩
          · intro e he
            have hm := c7 e he
            rw [setDesc_hashTable, advanceClock_hashTable] at hm
            exact hm
          · intro hfull
            exact c9 (InvFull_clearRef (InvFull_advanceClock hfull) _)
        · rw [if_neg hr] at h
          by_cases hp : (s.advanceClock.getDesc s.advanceClock.clockHand).pinCnt > 0
          · rw [if_pos hp] at h
            obtain ⟨c1, c2, c3, c4, c5, c6, c7, c8, c9⟩ :=
              allocBufLoop_ok_spec fuel _ (pc + 1) s1 v (Inv_advanceClock hInv) h
            refine ⟨c1.trans (by simp), c2.trans (by simp), c3.trans (by simp),
              c4.trans (by simp), by simpa using c5, c6, ?_, c8, ?_⟩
            · intro e he
              have hm := c7 e he
              rw [advanceClock_hashTable] at hm
              exact hm
            · intro hfull
              exact c9 (InvFull_advanceClock hfull)
          · rw [if_neg hp] at h
            obtain ⟨h1, h2⟩ := Prod.mk.inj h
            cases h1
            cases Except.ok.inj h2
            have hv2 : (s.advanceClock.getDesc s.advanceClock.clockHand).valid = true := by
              revert hv
              cases (s.advanceClock.getDesc s.advanceClock.clockHand).valid <;> simp
            have hhand2 : s.advanceClock.clockHand < s.numBufs :=
              advanceClock_lt s hInv.1 hInv.2.2.1
            refine ⟨by simp, by simp, by simp, by simp, hhand2, ?_, ?_, ?_, ?_⟩
            · -- the core invariant survives the victim step
              refine ⟨by simpa using hInv.1, ?_, ?_, ?_, ?_⟩
              · rw [victimStep_length, victimStep_numBufs, advanceClock_numBufs,
                  advanceClock_bufDescTable]
                exact hInv.2.1
              · rw [victimStep_clockHand, victimStep_numBufs, advanceClock_numBufs]
                exact hhand2
              · intro e he
                rw [victimStep_hashTable] at he
                have hes : e ∈ s.hashTable := by
                  have hm := htRemove_sub _ _ _ he
                  rwa [advanceClock_hashTable] at hm
                obtain ⟨hb, hval, hf, hpg⟩ := hInv.2.2.2.1 e hes
                obtain ⟨gv, gf, gp, _, _, _⟩ := victimStep_getDesc_fields
                  s.advanceClock s.advanceClock.clockHand e.2
                rw [advanceClock_getDesc] at gv gf gp
                exact ⟨by simpa using hb, gv.trans hval, gf.trans hf, gp.trans hpg⟩
              · intro i hi hvf
                rw [victimStep_numBufs, advanceClock_numBufs] at hi
                obtain ⟨gv, gf, gp, gc, gr, _⟩ := victimStep_getDesc_fields
                  s.advanceClock s.advanceClock.clockHand i
                rw [gv, advanceClock_getDesc] at hvf
                have hi2 : i ≠ s.advanceClock.clockHand := by
                  intro hie
                  rw [hie, ← advanceClock_getDesc] at hvf
                  rw [hvf] at hv2
                  exact absurd hv2 (by simp)
                have hsame := victimStep_getDesc_ne s.advanceClock
                  s.advanceClock.clockHand i hi2
                rw [hsame, advanceClock_getDesc]
                exact hInv.2.2.2.2 i hi hvf
            · intro e he
              rw [victimStep_hashTable] at he
              have hm := htRemove_sub _ _ _ he
              rwa [advanceClock_hashTable] at hm
            · intro e he hev
              rw [victimStep_hashTable] at he
              have hes : e ∈ s.hashTable := by
                have hm := htRemove_sub _ _ _ he
                rwa [advanceClock_hashTable] at hm
              have hkey := htRemove_mem_ne _ _ _ he
              obtain ⟨hb, hval, hf, hpg⟩ := hInv.2.2.2.1 e hes
              apply hkey
              rw [advanceClock_getDesc, ← hev, hf, hpg]
            · intro hfull i hi hne hvalid
              rw [victimStep_numBufs, advanceClock_numBufs] at hi
              have hsame := victimStep_getDesc_ne s.advanceClock
                s.advanceClock.clockHand i hne
              rw [hsame, advanceClock_getDesc] at hvalid ⊢
              rw [victimStep_hashTable, advanceClock_hashTable, advanceClock_getDesc]
              have hlookI : htLookup s.hashTable
                  ((s.getDesc i).file, (s.getDesc i).pageNo) = some i :=
                hfull.2.1 i hi hvalid
              have hlookV : htLookup s.hashTable
                  ((s.getDesc s.advanceClock.clockHand).file,
                    (s.getDesc s.advanceClock.clockHand).pageNo) =
                  some s.advanceClock.clockHand := by
                refine hfull.2.1 _ hhand2 ?_
                rw [← advanceClock_getDesc]
                exact hv2
              have hkne : ((s.getDesc i).file, (s.getDesc i).pageNo) ≠
                  ((s.getDesc s.advanceClock.clockHand).file,
                    (s.getDesc s.advanceClock.clockHand).pageNo) := by
                intro hkeq
                rw [hkeq, hlookV] at hlookI
                exact hne (Option.some.inj hlookI).symm
              rw [htLookup_remove_ne _ _ _ hkne]
              exact hlookI
    · rw [if_neg hpc] at h
      by_cases hgt : s.numBufs - 1 < pc
      · rw [if_pos hgt] at h
        exact absurd (Prod.mk.inj h).2 (by simp)
      · omega

theorem allocBuf_ok_spec {s s1 : BufState} {v : Nat} (hInv : Inv s)
    (h : allocBuf s = (s1, .ok v)) : allocOk s s1 v :=
  allocBufLoop_ok_spec _ s 0 s1 v hInv h

theorem allocBuf_error_spec {s s1 : BufState} {e : BufError}
    (h : allocBuf s = (s1, .error e)) : stableFrom s s1 :=
  allocBufLoop_error_spec _ s 0 s1 e h

theorem getDesc_of_table_set {s2 s : BufState} (i : Nat) (d : BufDesc)
    (htab : s2.bufDescTable = s.bufDescTable.set i d) (j : Nat) :
    s2.getDesc j = if j = i ∧ i < s.bufDescTable.length then d else s.getDesc j := by
  unfold BufState.getDesc
  rw [htab]
  by_cases hj : j = i ∧ i < s.bufDescTable.length
  · rw [if_pos hj]
    rcases hj with ⟨hj1, hj2⟩
    subst hj1
    exact getD_set_self _ _ _ _ hj2
  · rw [if_neg hj]
    by_cases hjf : j = i
    · subst hjf
      have hb : s.bufDescTable.length ≤ j := by
        rcases Nat.lt_or_ge j s.bufDescTable.length with hlt | hge
        · exact absurd ⟨rfl, hlt⟩ hj
        · exact hge
      rw [set_of_le _ _ _ hb]
    · exact getD_set_ne _ _ _ _ _ (fun hc => hjf hc.symm)

theorem Inv_of_stableFrom {s s1 : BufState} (h : Inv s) (hst : stableFrom s s1) :
    Inv s1 := by
  obtain ⟨n1, l1, t1, p1, w1, d1, k1, g1⟩ := hst
  obtain ⟨h0, hlen, hhand, hent, hinv⟩ := h
  refine ⟨by rw [n1]; exact h0, by rw [l1, n1]; exact hlen, k1 h0 hhand, ?_, ?_⟩
  · intro e he
    rw [t1] at he
    obtain ⟨hb, hval, hf, hpg⟩ := hent e he
    obtain ⟨_, gf, gp, gv, _, _, _⟩ := g1 e.2
    exact ⟨by rw [n1]; exact hb, gv.trans hval, gf.trans hf, gp.trans hpg⟩
  · intro i hi hvf
    rw [n1] at hi
    obtain ⟨gn, gf, gp, gv, gc, gd, gr⟩ := g1 i
    rw [gv] at hvf
    obtain ⟨c1, c2, c3, c4⟩ := hinv i hi hvf
    refine ⟨gc.trans c1, gd.trans c2, ?_, gf.trans c4⟩
    by_cases hb : (s1.getDesc i).refbit = true
    · exact absurd (gr hb) (by rw [c3]; simp)
    · revert hb
      cases (s1.getDesc i).refbit <;> simp

theorem InvFull_of_stableFrom {s s1 : BufState} (h : InvFull s)
    (hst : stableFrom s s1) : InvFull s1 := by
  obtain ⟨hi, h4, h5⟩ := h
  have hst2 := hst
  obtain ⟨n1, l1, t1, p1, w1, d1, k1, g1⟩ := hst2
  refine ⟨Inv_of_stableFrom hi hst, ?_, ?_⟩
  · intro i hii hv
    rw [n1] at hii
    obtain ⟨gn, gf, gp, gv, _, _, _⟩ := g1 i
    rw [gv] at hv
    rw [t1, gf, gp]
    exact h4 i hii hv
  · intro e he
    rw [t1] at he
    rw [p1]
    exact h5 e he

theorem Inv_setDesc_preserve {s : BufState} (h : Inv s) (i : Nat) (d : BufDesc)
    (hvalid : d.valid = (s.getDesc i).valid)
    (hfile : d.file = (s.getDesc i).file)
    (hpage : d.pageNo = (s.getDesc i).pageNo)
    (hclean : d.valid = false →
      d.pinCnt = 0 ∧ d.dirty = false ∧ d.refbit = false ∧ d.file = none) :
    Inv (s.setDesc i d) := by
  obtain ⟨h0, hlen, hhand, hent, hinv⟩ := h
  refine ⟨h0, by simpa using hlen, hhand, ?_, ?_⟩
  · intro e he
    rw [setDesc_hashTable] at he
    obtain ⟨hb, hval, hf, hpg⟩ := hent e he
    rw [getDesc_setDesc]
    by_cases hcase : e.2 = i ∧ i < s.bufDescTable.length
    · rw [if_pos hcase]
      rcases hcase with ⟨he2, _⟩
      rw [he2] at hval hf hpg
      exact ⟨hb, hvalid.trans hval, hfile.trans hf, hpage.trans hpg⟩
    · rw [if_neg hcase]
      exact ⟨hb, hval, hf, hpg⟩
  · intro j hj hvf
    rw [getDesc_setDesc] at hvf ⊢
    by_cases hcase : j = i ∧ i < s.bufDescTable.length
    · rw [if_pos hcase] at hvf ⊢
      exact hclean hvf
    · rw [if_neg hcase] at hvf ⊢
      exact hinv j (by simpa using hj) hvf

theorem InvFull_setDesc_preserve {s : BufState} (h : InvFull s) (i : Nat) (d : BufDesc)
    (hvalid : d.valid = (s.getDesc i).valid)
    (hfile : d.file = (s.getDesc i).file)
    (hpage : d.pageNo = (s.getDesc i).pageNo)
    (hclean : d.valid = false →
      d.pinCnt = 0 ∧ d.dirty = false ∧ d.refbit = false ∧ d.file = none) :
    InvFull (s.setDesc i d) := by
  obtain ⟨hi, h4, h5⟩ := h
  refine ⟨Inv_setDesc_preserve hi i d hvalid hfile hpage hclean, ?_, ?_⟩
  · intro j hj hv
    rw [setDesc_hashTable]
    rw [getDesc_setDesc] at hv ⊢
    by_cases hcase : j = i ∧ i < s.bufDescTable.length
    · rw [if_pos hcase] at hv ⊢
      rw [hvalid] at hv
      rw [hfile, hpage]
      rcases hcase with ⟨hj2, _⟩
      subst hj2
      exact h4 j (by simpa using hj) hv
    · rw [if_neg hcase] at hv ⊢
      exact h4 j (by simpa using hj) hv
  · intro e he
    rw [setDesc_hashTable] at he
    simpa using h5 e he

theorem Inv_clear_remove {s s2 : BufState} (h : Inv s) (i : Nat)
    (hnum : s2.numBufs = s.numBufs)
    (hhand : s2.clockHand = s.clockHand)
    (htab : s2.bufDescTable = s.bufDescTable.set i ((s.getDesc i).Clear))
    (hht : s2.hashTable =
      htRemove s.hashTable ((s.getDesc i).file, (s.getDesc i).pageNo)) :
    Inv s2 := by
  obtain ⟨h0, hlen, hhand0, hent, hinv⟩ := h
  have hget := getDesc_of_table_set i ((s.getDesc i).Clear) htab
  refine ⟨by rw [hnum]; exact h0, by rw [htab, hnum]; simpa using hlen,
    by rw [hhand, hnum]; exact hhand0, ?_, ?_⟩
  · intro e he
    rw [hht] at he
    have hes := htRemove_sub _ _ _ he
    have hkey := htRemove_mem_ne _ _ _ he
    obtain ⟨hb, hval, hf, hpg⟩ := hent e hes
    have hne2 : e.2 ≠ i := by
      intro hei
      apply hkey
      rw [← hei, hf, hpg]
    rw [hget e.2, if_neg (fun hc => hne2 hc.1)]
    exact ⟨by rw [hnum]; exact hb, hval, hf, hpg⟩
  · intro j hj hvf
    rw [hget j] at hvf ⊢
    by_cases hcase : j = i ∧ i < s.bufDescTable.length
    · rw [if_pos hcase] at hvf ⊢
      exact ⟨rfl, rfl, rfl, rfl⟩
    · rw [if_neg hcase] at hvf ⊢
      exact hinv j (by rw [hnum] at hj; exact hj) hvf

theorem InvFull_clear_remove {s s2 : BufState} (h : InvFull s) (i : Nat)
    (hivalid : (s.getDesc i).valid = true)
    (hibound : i < s.numBufs)
    (hnum : s2.numBufs = s.numBufs)
    (hhand : s2.clockHand = s.clockHand)
    (htab : s2.bufDescTable = s.bufDescTable.set i ((s.getDesc i).Clear))
    (hht : s2.hashTable =
      htRemove s.hashTable ((s.getDesc i).file, (s.getDesc i).pageNo))
    (hnext : s2.nextPageId = s.nextPageId) :
    InvFull s2 := by
  obtain ⟨hi, h4, h5⟩ := h
  have hget := getDesc_of_table_set i ((s.getDesc i).Clear) htab
  have hilen : i < s.bufDescTable.length := by rw [hi.2.1]; exact hibound
  refine ⟨Inv_clear_remove hi i hnum hhand htab hht, ?_, ?_⟩
  · intro j hj hv
    rw [hget j] at hv ⊢
    by_cases hcase : j = i ∧ i < s.bufDescTable.length
    · rw [if_pos hcase] at hv
      exact absurd hv (by simp [BufDesc.Clear])
    · rw [if_neg hcase] at hv ⊢
      have hji : j ≠ i := fun hc => hcase ⟨hc, hilen⟩
      have hl := h4 j (by rw [hnum] at hj; exact hj) hv
      have hlV := h4 i hibound hivalid
      have hkne : ((s.getDesc j).file, (s.getDesc j).pageNo) ≠
          ((s.getDesc i).file, (s.getDesc i).pageNo) := by
        intro hke
        rw [hke, hlV] at hl
        exact hji (Option.some.inj hl.symm)
      rw [hht, htLookup_remove_ne _ _ _ hkne]
      exact hl
  · intro e he
    rw [hht] at he
    rw [hnext]
    exact h5 e (htRemove_sub _ _ _ he)

theorem Inv_after_fill {s1 s3 : BufState} {v f p : Nat} (hInv1 : Inv s1)
    (hnov : ∀ e ∈ s1.hashTable, e.2 ≠ v)
    (hvlt : v < s1.numBufs)
    (hnum : s3.numBufs = s1.numBufs)
    (hhand : s3.clockHand = s1.clockHand)
    (htab : s3.bufDescTable = s1.bufDescTable.set v ((s1.getDesc v).Set f p))
    (hht : s3.hashTable = htInsert s1.hashTable (some f, p) v) :
    Inv s3 := by
  obtain ⟨h0, hlen, hhand0, hent, hinv⟩ := hInv1
  have hvlen : v < s1.bufDescTable.length := by rw [hlen]; exact hvlt
  have hget := getDesc_of_table_set v ((s1.getDesc v).Set f p) htab
  refine ⟨by rw [hnum]; exact h0, by rw [htab, hnum]; simpa using hlen,
    by rw [hhand, hnum]; exact hhand0, ?_, ?_⟩
  · intro e he
    rw [hht] at he
    rcases List.mem_cons.mp he with hnew | hold
    · subst hnew
      rw [hget, if_pos ⟨rfl, hvlen⟩]
      exact ⟨by rw [hnum]; exact hvlt, rfl, rfl, rfl⟩
    · obtain ⟨hb, hval, hf, hpg⟩ := hent e hold
      have hne := hnov e hold
      rw [hget e.2, if_neg (fun hc => hne hc.1)]
      exact ⟨by rw [hnum]; exact hb, hval, hf, hpg⟩
  · intro j hj hvf
    rw [hget j] at hvf ⊢
    by_cases hcase : j = v ∧ v < s1.bufDescTable.length
    · rw [if_pos hcase] at hvf
      exact absurd hvf (by simp [BufDesc.Set])
    · rw [if_neg hcase] at hvf ⊢
      exact hinv j (by rw [hnum] at hj; exact hj) hvf

theorem InvFull_after_fill {s1 s3 : BufState} {v f p : Nat} (hInv1 : Inv s1)
    (hnov : ∀ e ∈ s1.hashTable, e.2 ≠ v)
    (hvlt : v < s1.numBufs)
    (hmiss : htLookup s1.hashTable (some f, p) = none)
    (hrem : ∀ i, i < s1.numBufs → i ≠ v → (s1.getDesc i).valid = true →
      htLookup s1.hashTable ((s1.getDesc i).file, (s1.getDesc i).pageNo) = some i)
    (hdisk : ∀ e ∈ s1.hashTable,
      e.1.1 ≠ none ∧ e.1.2 < filePages s3.nextPageId (e.1.1.getD 0))
    (hpnew : p < filePages s3.nextPageId f)
    (hnum : s3.numBufs = s1.numBufs)
    (hhand : s3.clockHand = s1.clockHand)
    (htab : s3.bufDescTable = s1.bufDescTable.set v ((s1.getDesc v).Set f p))
    (hht : s3.hashTable = htInsert s1.hashTable (some f, p) v) :
    InvFull s3 := by
  have hvlen : v < s1.bufDescTable.length := by rw [hInv1.2.1]; exact hvlt
  have hget := getDesc_of_table_set v ((s1.getDesc v).Set f p) htab
  refine ⟨Inv_after_fill hInv1 hnov hvlt hnum hhand htab hht, ?_, ?_⟩
  · intro j hj hv
    rw [hht]
    rw [hget j] at hv ⊢
    by_cases hcase : j = v ∧ v < s1.bufDescTable.length
    · rw [if_pos hcase] at hv ⊢
      rcases hcase with ⟨hjv, _⟩
      subst hjv
      simp [htInsert, htLookup, BufDesc.Set]
    · rw [if_neg hcase] at hv ⊢
      have hjv : j ≠ v := fun hc => hcase ⟨hc, hvlen⟩
      have hl := hrem j (by rw [hnum] at hj; exact hj) hjv hv
      have hkne : ((s1.getDesc j).file, (s1.getDesc j).pageNo) ≠
          ((some f, p) : HashKey) := by
        intro hke
        rw [hke, hmiss] at hl
        exact Option.noConfusion hl
      simp only [htInsert, htLookup]
      rw [if_neg (fun hc => hkne hc.symm)]
      exact hl
  · intro e he
    rw [hht] at he
    rcases List.mem_cons.mp he with hnew | hold
    · subst hnew
      exact ⟨by simp, by simpa using hpnew⟩
    · exact hdisk e hold

theorem InvFull_bump {s : BufState} (h : InvFull s) (f : Nat) :
    InvFull { s with nextPageId := bumpFilePages s.nextPageId f } := by
  obtain ⟨⟨h0, hlen, hhand, hent, hinv⟩, h4, h5⟩ := h
  refine ⟨⟨h0, hlen, hhand, ?_, ?_⟩, ?_, ?_⟩
  · intro e he
    exact hent e he
  · intro i hi hvf
    exact hinv i hi hvf
  · intro i hi hv
    exact h4 i hi hv
  · intro e he
    obtain ⟨hn, hb⟩ := h5 e he
    refine ⟨hn, ?_⟩
    show e.1.2 < filePages (bumpFilePages s.nextPageId f) (e.1.1.getD 0)
    rw [filePages_bump]
    by_cases hg : e.1.1.getD 0 = f
    · rw [if_pos hg]
      omega
    · rw [if_neg hg]
      exact hb

/-! Branch equations: one lemma per control path of each operation, used both
by the invariant-preservation proofs and by the claim theorems. -/

theorem readPage_hit (s : BufState) (f p frameNo : Nat)
    (hl : htLookup s.hashTable (some f, p) = some frameNo) :
    readPage s f p =
      (s.setDesc frameNo
        { s.getDesc frameNo with
          refbit := true
          pinCnt := (s.getDesc frameNo).pinCnt + 1 }, .ok (some frameNo)) := by
  simp only [readPage, hl]

theorem readPage_miss_exceeded (s : BufState) (f p : Nat) (s1 : BufState)
    (hl : htLookup s.hashTable (some f, p) = none)
    (hab : allocBuf s = (s1, .error .bufferExceeded)) :
    readPage s f p = (s1, .ok none) := by
  simp only [readPage, hl, hab]

theorem readPage_miss_ok_dup (s : BufState) (f p : Nat) (s1 : BufState) (v w : Nat)
    (hl : htLookup s.hashTable (some f, p) = none)
    (hab : allocBuf s = (s1, .ok v))
    (hpd : p < filePages s1.nextPageId f)
    (hl1 : htLookup s1.hashTable (some f, p) = some w) :
    readPage s f p = (s1, .error .duplicateKey) := by
  simp only [readPage, hl, hab]
  rw [if_pos hpd]
  simp only [hl1]

theorem readPage_miss_ok_nodisk (s : BufState) (f p : Nat) (s1 : BufState) (v : Nat)
    (hl : htLookup s.hashTable (some f, p) = none)
    (hab : allocBuf s = (s1, .ok v))
    (hpd : ¬ p < filePages s1.nextPageId f) :
    readPage s f p = (s1, .error .invalidPage) := by
  simp only [readPage, hl, hab]
  rw [if_neg hpd]

theorem readPage_miss_ok_fill (s : BufState) (f p : Nat) (s1 : BufState) (v : Nat)
    (hl : htLookup s.hashTable (some f, p) = none)
    (hab : allocBuf s = (s1, .ok v))
    (hpd : p < filePages s1.nextPageId f)
    (hl1 : htLookup s1.hashTable (some f, p) = none) :
    readPage s f p = (fillState s1 v f p, .ok (some v)) := by
  simp only [readPage, hl, hab]
  rw [if_pos hpd]
  simp only [hl1]

theorem unPinPage_miss (s : BufState) (f p : Nat) (md : Bool)
    (hl : htLookup s.hashTable (some f, p) = none) :
    unPinPage s f p md = (s, .ok ()) := by
  simp only [unPinPage, hl]

theorem unPinPage_zero (s : BufState) (f p : Nat) (md : Bool) (frameNo : Nat)
    (hl : htLookup s.hashTable (some f, p) = some frameNo)
    (hpin : ((unpinState s frameNo md).getDesc frameNo).pinCnt = 0) :
    unPinPage s f p md =
      (unpinState s frameNo md, .error (.pageNotPinned f p frameNo)) := by
  simp only [unPinPage, hl]
  rw [if_pos hpin]

theorem unPinPage_dec (s : BufState) (f p : Nat) (md : Bool) (frameNo : Nat)
    (hl : htLookup s.hashTable (some f, p) = some frameNo)
    (hpin : ¬ ((unpinState s frameNo md).getDesc frameNo).pinCnt = 0) :
    unPinPage s f p md =
      ((unpinState s frameNo md).setDesc frameNo
        { (unpinState s frameNo md).getDesc frameNo with
          pinCnt := ((unpinState s frameNo md).getDesc frameNo).pinCnt - 1 },
        .ok ()) := by
  simp only [unPinPage, hl]
  rw [if_neg hpin]

theorem allocPage_alloc_err (s : BufState) (f : Nat) (s1 : BufState) (e : BufError)
    (hab : allocBuf { s with nextPageId := bumpFilePages s.nextPageId f } =
      (s1, .error e)) :
    allocPage s f = (s1, .error e) := by
  simp only [allocPage, hab]

theorem allocPage_dup (s : BufState) (f : Nat) (s1 : BufState) (v w : Nat)
    (hab : allocBuf { s with nextPageId := bumpFilePages s.nextPageId f } =
      (s1, .ok v))
    (hl1 : htLookup s1.hashTable (some f, filePages s.nextPageId f) = some w) :
    allocPage s f = (s1, .error .duplicateKey) := by
  simp only [allocPage, hab, hl1]

theorem allocPage_fill (s : BufState) (f : Nat) (s1 : BufState) (v : Nat)
    (hab : allocBuf { s with nextPageId := bumpFilePages s.nextPageId f } =
      (s1, .ok v))
    (hl1 : htLookup s1.hashTable (some f, filePages s.nextPageId f) = none) :
    allocPage s f =
      (fillState s1 v f (filePages s.nextPageId f),
        .ok (filePages s.nextPageId f, v)) := by
  simp only [allocPage, hab, hl1]

theorem disposePage_miss (s : BufState) (f p : Nat)
    (hl : htLookup s.hashTable (some f, p) = none) :
    disposePage s f p =
      ({ s with deleteLog := s.deleteLog ++ [(f, p)] }, .ok ()) := by
  simp only [disposePage, hl]

theorem disposePage_hit (s : BufState) (f p frameNum : Nat)
    (hl : htLookup s.hashTable (some f, p) = some frameNum) :
    disposePage s f p =
      ({ clearAndRemove s frameNum (some f, p) with
          deleteLog := (clearAndRemove s frameNum (some f, p)).deleteLog ++ [(f, p)] },
        .ok ()) := by
  simp only [disposePage, hl]

theorem flushStep_skip (f : Nat) (s : BufState) (i : Nat)
    (hg : ¬ ((s.getDesc i).file = some f ∧ (s.getDesc i).valid = true)) :
    flushStep f s i = (s, .ok ()) := by
  simp only [flushStep]
  rw [if_neg hg]

theorem flushStep_pinned (f : Nat) (s : BufState) (i : Nat)
    (hg : (s.getDesc i).file = some f ∧ (s.getDesc i).valid = true)
    (hpin : ((flushWriteBack s i).getDesc i).pinCnt ≠ 0) :
    flushStep f s i =
      (flushWriteBack s i,
        .error (.pagePinned f ((flushWriteBack s i).getDesc i).pageNo
          ((flushWriteBack s i).getDesc i).frameNo)) := by
  simp only [flushStep]
  rw [if_pos hg, if_pos hpin]

theorem flushStep_notfound (f : Nat) (s : BufState) (i : Nat)
    (hg : (s.getDesc i).file = some f ∧ (s.getDesc i).valid = true)
    (hpin : ¬ ((flushWriteBack s i).getDesc i).pinCnt ≠ 0)
    (hlk : htLookup (flushWriteBack s i).hashTable
      (some f, ((flushWriteBack s i).getDesc i).pageNo) = none) :
    flushStep f s i = (flushWriteBack s i, .error .hashNotFound) := by
  simp only [flushStep]
  rw [if_pos hg, if_neg hpin]
  simp only [hlk]

theorem flushStep_clear (f : Nat) (s : BufState) (i : Nat) (w : Nat)
    (hg : (s.getDesc i).file = some f ∧ (s.getDesc i).valid = true)
    (hpin : ¬ ((flushWriteBack s i).getDesc i).pinCnt ≠ 0)
    (hlk : htLookup (flushWriteBack s i).hashTable
      (some f, ((flushWriteBack s i).getDesc i).pageNo) = some w) :
    flushStep f s i =
      (clearAndRemove (flushWriteBack s i) i
        (some f, ((flushWriteBack s i).getDesc i).pageNo), .ok ()) := by
  simp only [flushStep]
  rw [if_pos hg, if_neg hpin]
  simp only [hlk]

@[simp] theorem fillState_numBufs (s1 : BufState) (v f p : Nat) :
    (fillState s1 v f p).numBufs = s1.numBufs := rfl

@[simp] theorem fillState_clockHand (s1 : BufState) (v f p : Nat) :
    (fillState s1 v f p).clockHand = s1.clockHand := rfl

@[simp] theorem fillState_nextPageId (s1 : BufState) (v f p : Nat) :
    (fillState s1 v f p).nextPageId = s1.nextPageId := rfl

@[simp] theorem fillState_writeLog (s1 : BufState) (v f p : Nat) :
    (fillState s1 v f p).writeLog = s1.writeLog := rfl

@[simp] theorem fillState_deleteLog (s1 : BufState) (v f p : Nat) :
    (fillState s1 v f p).deleteLog = s1.deleteLog := rfl

@[simp] theorem fillState_hashTable (s1 : BufState) (v f p : Nat) :
    (fillState s1 v f p).hashTable = htInsert s1.hashTable (some f, p) v := rfl

theorem fillState_bufDescTable (s1 : BufState) (v f p : Nat) :
    (fillState s1 v f p).bufDescTable =
      s1.bufDescTable.set v ((s1.getDesc v).Set f p) := rfl

@[simp] theorem clearAndRemove_numBufs (s : BufState) (i : Nat) (k : HashKey) :
    (clearAndRemove s i k).numBufs = s.numBufs := rfl

@[simp] theorem clearAndRemove_clockHand (s : BufState) (i : Nat) (k : HashKey) :
    (clearAndRemove s i k).clockHand = s.clockHand := rfl

@[simp] theorem clearAndRemove_nextPageId (s : BufState) (i : Nat) (k : HashKey) :
    (clearAndRemove s i k).nextPageId = s.nextPageId := rfl

@[simp] theorem clearAndRemove_writeLog (s : BufState) (i : Nat) (k : HashKey) :
    (clearAndRemove s i k).writeLog = s.writeLog := rfl

@[simp] theorem clearAndRemove_deleteLog (s : BufState) (i : Nat) (k : HashKey) :
    (clearAndRemove s i k).deleteLog = s.deleteLog := rfl

@[simp] theorem clearAndRemove_hashTable (s : BufState) (i : Nat) (k : HashKey) :
    (clearAndRemove s i k).hashTable = htRemove s.hashTable k := rfl

theorem clearAndRemove_bufDescTable (s : BufState) (i : Nat) (k : HashKey) :
    (clearAndRemove s i k).bufDescTable =
      s.bufDescTable.set i ((s.getDesc i).Clear) := rfl

theorem clearAndRemove_getDesc (s : BufState) (i : Nat) (k : HashKey) (j : Nat) :
    (clearAndRemove s i k).getDesc j =
      if j = i ∧ i < s.bufDescTable.length then (s.getDesc i).Clear
      else s.getDesc j :=
  getDesc_of_table_set i ((s.getDesc i).Clear) (clearAndRemove_bufDescTable s i k) j

@[simp] theorem unpinState_numBufs (s : BufState) (n : Nat) (md : Bool) :
    (unpinState s n md).numBufs = s.numBufs := by
  unfold unpinState
  by_cases hmd : md = true <;> simp [hmd]

@[simp] theorem unpinState_clockHand (s : BufState) (n : Nat) (md : Bool) :
    (unpinState s n md).clockHand = s.clockHand := by
  unfold unpinState
  by_cases hmd : md = true <;> simp [hmd]

@[simp] theorem unpinState_hashTable (s : BufState) (n : Nat) (md : Bool) :
    (unpinState s n md).hashTable = s.hashTable := by
  unfold unpinState
  by_cases hmd : md = true <;> simp [hmd]

@[simp] theorem unpinState_nextPageId (s : BufState) (n : Nat) (md : Bool) :
    (unpinState s n md).nextPageId = s.nextPageId := by
  unfold unpinState
  by_cases hmd : md = true <;> simp [hmd]

@[simp] theorem unpinState_writeLog (s : BufState) (n : Nat) (md : Bool) :
    (unpinState s n md).writeLog = s.writeLog := by
  unfold unpinState
  by_cases hmd : md = true <;> simp [hmd]

@[simp] theorem unpinState_deleteLog (s : BufState) (n : Nat) (md : Bool) :
    (unpinState s n md).deleteLog = s.deleteLog := by
  unfold unpinState
  by_cases hmd : md = true <;> simp [hmd]

@[simp] theorem unpinState_length (s : BufState) (n : Nat) (md : Bool) :
    (unpinState s n md).bufDescTable.length = s.bufDescTable.length := by
  unfold unpinState
  by_cases hmd : md = true <;> simp [hmd]

theorem unpinState_getDesc (s : BufState) (n : Nat) (md : Bool) (j : Nat) :
    (unpinState s n md).getDesc j =
      if md = true ∧ j = n ∧ n < s.bufDescTable.length
      then { s.getDesc n with dirty := true }
      else s.getDesc j := by
  unfold unpinState
  by_cases hmd : md = true
  · rw [if_pos hmd, getDesc_setDesc]
    by_cases hj : j = n ∧ n < s.bufDescTable.length
    · rw [if_pos hj, if_pos ⟨hmd, hj.1, hj.2⟩]
    · rw [if_neg hj, if_neg (fun hc => hj ⟨hc.2.1, hc.2.2⟩)]
  · rw [if_neg hmd, if_neg (fun hc => hmd hc.1)]

@[simp] theorem flushWriteBack_numBufs (s : BufState) (i : Nat) :
    (flushWriteBack s i).numBufs = s.numBufs := by
  unfold flushWriteBack
  by_cases hd : (s.getDesc i).dirty = true <;> simp [hd]

@[simp] theorem flushWriteBack_clockHand (s : BufState) (i : Nat) :
    (flushWriteBack s i).clockHand = s.clockHand := by
  unfold flushWriteBack
  by_cases hd : (s.getDesc i).dirty = true <;> simp [hd]

@[simp] theorem flushWriteBack_hashTable (s : BufState) (i : Nat) :
    (flushWriteBack s i).hashTable = s.hashTable := by
  unfold flushWriteBack
  by_cases hd : (s.getDesc i).dirty = true <;> simp [hd]

@[simp] theorem flushWriteBack_nextPageId (s : BufState) (i : Nat) :
    (flushWriteBack s i).nextPageId = s.nextPageId := by
  unfold flushWriteBack
  by_cases hd : (s.getDesc i).dirty = true <;> simp [hd]

@[simp] theorem flushWriteBack_deleteLog (s : BufState) (i : Nat) :
    (flushWriteBack s i).deleteLog = s.deleteLog := by
  unfold flushWriteBack
  by_cases hd : (s.getDesc i).dirty = true <;> simp [hd]

@[simp] theorem flushWriteBack_length (s : BufState) (i : Nat) :
    (flushWriteBack s i).bufDescTable.length = s.bufDescTable.length := by
  unfold flushWriteBack
  by_cases hd : (s.getDesc i).dirty = true <;> simp [hd]

theorem flushWriteBack_writeLog (s : BufState) (i : Nat) :
    (flushWriteBack s i).writeLog =
      if (s.getDesc i).dirty = true
      then s.writeLog ++ [((s.getDesc i).file, (s.getDesc i).pageNo)]
      else s.writeLog := by
  unfold flushWriteBack
  by_cases hd : (s.getDesc i).dirty = true <;> simp [hd]

theorem flushWriteBack_getDesc (s : BufState) (i : Nat) (j : Nat) :
    (flushWriteBack s i).getDesc j =
      if (s.getDesc i).dirty = true ∧ j = i ∧ i < s.bufDescTable.length
      then { s.getDesc i with dirty := false }
      else s.getDesc j := by
  unfold flushWriteBack
  by_cases hd : (s.getDesc i).dirty = true
  · rw [if_pos hd]
    have htab : ({ s.setDesc i { s.getDesc i with dirty := false } with
        writeLog := s.writeLog ++ [((s.getDesc i).file, (s.getDesc i).pageNo)] } :
        BufState).bufDescTable = s.bufDescTable.set i { s.getDesc i with dirty := false } := rfl
    rw [getDesc_of_table_set i { s.getDesc i with dirty := false } htab j]
    by_cases hj : j = i ∧ i < s.bufDescTable.length
    · rw [if_pos hj, if_pos ⟨hd, hj.1, hj.2⟩]
    · rw [if_neg hj, if_neg (fun hc => hj ⟨hc.2.1, hc.2.2⟩)]
  · rw [if_neg hd, if_neg (fun hc => hd hc.1)]

theorem Inv_invalid_clean {s : BufState} (h : Inv s) (i : Nat)
    (hv : (s.getDesc i).valid = false) :
    (s.getDesc i).pinCnt = 0 ∧ (s.getDesc i).dirty = false ∧
    (s.getDesc i).refbit = false ∧ (s.getDesc i).file = none := by
  by_cases hb : i < s.numBufs
  · exact h.2.2.2.2 i hb hv
  · have hdef : s.getDesc i = defaultDesc := by
      unfold BufState.getDesc
      refine List.getD_eq_default _ _ ?_
      rw [h.2.1]
      omega
    rw [hdef]
    exact ⟨rfl, rfl, rfl, rfl⟩

theorem Inv_update_preserve {s s2 : BufState} (h : Inv s) (i : Nat) (d : BufDesc)
    (hnum : s2.numBufs = s.numBufs)
    (hhand : s2.clockHand = s.clockHand)
    (htab : s2.bufDescTable = s.bufDescTable.set i d)
    (hht : s2.hashTable = s.hashTable)
    (hvalid : d.valid = (s.getDesc i).valid)
    (hfile : d.file = (s.getDesc i).file)
    (hpage : d.pageNo = (s.getDesc i).pageNo)
    (hclean : d.valid = false →
      d.pinCnt = 0 ∧ d.dirty = false ∧ d.refbit = false ∧ d.file = none) :
    Inv s2 := by
  obtain ⟨h0, hlen, hhand0, hent, hinv⟩ := h
  have hget := getDesc_of_table_set i d htab
  refine ⟨by rw [hnum]; exact h0, by rw [htab, hnum]; simpa using hlen,
    by rw [hhand, hnum]; exact hhand0, ?_, ?_⟩
  · intro e he
    rw [hht] at he
    obtain ⟨hb, hval, hf, hpg⟩ := hent e he
    rw [hget e.2]
    by_cases hcase : e.2 = i ∧ i < s.bufDescTable.length
    · rw [if_pos hcase]
      rcases hcase with ⟨he2, _⟩
      rw [he2] at hval hf hpg
      exact ⟨by rw [hnum]; exact hb, hvalid.trans hval, hfile.trans hf,
        hpage.trans hpg⟩
    · rw [if_neg hcase]
      exact ⟨by rw [hnum]; exact hb, hval, hf, hpg⟩
  · intro j hj hvf
    rw [hget j] at hvf ⊢
    by_cases hcase : j = i ∧ i < s.bufDescTable.length
    · rw [if_pos hcase] at hvf ⊢
      exact hclean hvf
    · rw [if_neg hcase] at hvf ⊢
      exact hinv j (by rw [hnum] at hj; exact hj) hvf

theorem InvFull_update_preserve {s s2 : BufState} (h : InvFull s) (i : Nat) (d : BufDesc)
    (hnum : s2.numBufs = s.numBufs)
    (hhand : s2.clockHand = s.clockHand)
    (htab : s2.bufDescTable = s.bufDescTable.set i d)
    (hht : s2.hashTable = s.hashTable)
    (hnext : s2.nextPageId = s.nextPageId)
    (hvalid : d.valid = (s.getDesc i).valid)
    (hfile : d.file = (s.getDesc i).file)
    (hpage : d.pageNo = (s.getDesc i).pageNo)
    (hclean : d.valid = false →
      d.pinCnt = 0 ∧ d.dirty = false ∧ d.refbit = false ∧ d.file = none) :
    InvFull s2 := by
  obtain ⟨hi, h4, h5⟩ := h
  have hget := getDesc_of_table_set i d htab
  refine ⟨Inv_update_preserve hi i d hnum hhand htab hht hvalid hfile hpage hclean,
    ?_, ?_⟩
  · intro j hj hv
    rw [hht]
    rw [hget j] at hv ⊢
    by_cases hcase : j = i ∧ i < s.bufDescTable.length
    · rw [if_pos hcase] at hv ⊢
      rw [hvalid] at hv
      rw [hfile, hpage]
      rcases hcase with ⟨hj2, _⟩
      subst hj2
      exact h4 j (by rw [hnum] at hj; exact hj) hv
    · rw [if_neg hcase] at hv ⊢
      exact h4 j (by rw [hnum] at hj; exact hj) hv
  · intro e he
    rw [hht] at he
    rw [hnext]
    exact h5 e he

theorem Inv_unpinState {s : BufState} (h : Inv s) (n : Nat) (md : Bool)
    (hval : (s.getDesc n).valid = true) : Inv (unpinState s n md) := by
  unfold unpinState
  by_cases hmd : md = true
  · rw [if_pos hmd]
    exact Inv_setDesc_preserve h n _ rfl rfl rfl (fun hc => by simp [hval] at hc)
  · rw [if_neg hmd]
    exact h

theorem InvFull_unpinState {s : BufState} (h : InvFull s) (n : Nat) (md : Bool)
    (hval : (s.getDesc n).valid = true) : InvFull (unpinState s n md) := by
  unfold unpinState
  by_cases hmd : md = true
  · rw [if_pos hmd]
    exact InvFull_setDesc_preserve h n _ rfl rfl rfl (fun hc => by simp [hval] at hc)
  · rw [if_neg hmd]
    exact h

theorem Inv_flushWriteBack {s : BufState} (h : Inv s) (i : Nat) :
    Inv (flushWriteBack s i) := by
  unfold flushWriteBack
  by_cases hd : (s.getDesc i).dirty = true
  · rw [if_pos hd]
    refine Inv_update_preserve h i { s.getDesc i with dirty := false }
      rfl rfl rfl rfl rfl rfl rfl ?_
    intro hc
    obtain ⟨c1, _, c3, c4⟩ := Inv_invalid_clean h i hc
    exact ⟨c1, rfl, c3, c4⟩
  · rw [if_neg hd]
    exact h

theorem InvFull_flushWriteBack {s : BufState} (h : InvFull s) (i : Nat) :
    InvFull (flushWriteBack s i) := by
  unfold flushWriteBack
  by_cases hd : (s.getDesc i).dirty = true
  · rw [if_pos hd]
    refine InvFull_update_preserve h i { s.getDesc i with dirty := false }
      rfl rfl rfl rfl rfl rfl rfl rfl ?_
    intro hc
    obtain ⟨c1, _, c3, c4⟩ := Inv_invalid_clean h.1 i hc
    exact ⟨c1, rfl, c3, c4⟩
  · rw [if_neg hd]
    exact h

theorem readPage_miss_otherErr (s : BufState) (f p : Nat) (s1 : BufState)
    (e : BufError)
    (hl : htLookup s.hashTable (some f, p) = none)
    (hab : allocBuf s = (s1, .error e))
    (hne : e ≠ .bufferExceeded) :
    readPage s f p = (s1, .error e) := by
  cases e
  case bufferExceeded => exact absurd rfl hne
  all_goals simp only [readPage, hl, hab]

/-! Preservation of the invariants by every public operation. -/

theorem readPage_inv (s : BufState) (f p : Nat) (h : Inv s) :
    Inv (readPage s f p).1 := by
  cases hl : htLookup s.hashTable (some f, p) with
  | some frameNo =>
    rw [readPage_hit s f p frameNo hl]
    have hm := htLookup_mem _ _ _ hl
    have hval := (h.2.2.2.1 _ hm).2.1
    exact Inv_setDesc_preserve h frameNo _ rfl rfl rfl
      (fun hc => by simp [hval] at hc)
  | none =>
    rcases hab : allocBuf s with ⟨s1, r⟩
    cases r with
    | error e =>
      have h1 := Inv_of_stableFrom h (allocBuf_error_spec hab)
      by_cases he : e = .bufferExceeded
      · subst he
        rw [readPage_miss_exceeded s f p s1 hl hab]
        exact h1
      · rw [readPage_miss_otherErr s f p s1 e hl hab he]
        exact h1
    | ok v =>
      obtain ⟨c1, c2, c3, c4, c5, c6, c7, c8, c9⟩ := allocBuf_ok_spec h hab
      by_cases hpd : p < filePages s1.nextPageId f
      · cases hl1 : htLookup s1.hashTable (some f, p) with
        | some w =>
          rw [readPage_miss_ok_dup s f p s1 v w hl hab hpd hl1]
          exact c6
        | none =>
          rw [readPage_miss_ok_fill s f p s1 v hl hab hpd hl1]
          exact Inv_after_fill c6 c8 (by rw [← c1] at c5; exact c5) rfl rfl
            (fillState_bufDescTable s1 v f p) rfl
      · rw [readPage_miss_ok_nodisk s f p s1 v hl hab hpd]
        exact c6

theorem readPage_invFull (s : BufState) (f p : Nat) (h : InvFull s)
    (hni : (readPage s f p).2 ≠ .error .invalidPage) :
    InvFull (readPage s f p).1 := by
  cases hl : htLookup s.hashTable (some f, p) with
  | some frameNo =>
    rw [readPage_hit s f p frameNo hl]
    have hm := htLookup_mem _ _ _ hl
    have hval := (h.1.2.2.2.1 _ hm).2.1
    exact InvFull_setDesc_preserve h frameNo _ rfl rfl rfl
      (fun hc => by simp [hval] at hc)
  | none =>
    rcases hab : allocBuf s with ⟨s1, r⟩
    cases r with
    | error e =>
      have h1 := InvFull_of_stableFrom h (allocBuf_error_spec hab)
      by_cases he : e = .bufferExceeded
      · subst he
        rw [readPage_miss_exceeded s f p s1 hl hab]
        exact h1
      · rw [readPage_miss_otherErr s f p s1 e hl hab he]
        exact h1
    | ok v =>
      obtain ⟨c1, c2, c3, c4, c5, c6, c7, c8, c9⟩ := allocBuf_ok_spec h.1 hab
      by_cases hpd : p < filePages s1.nextPageId f
      · cases hl1 : htLookup s1.hashTable (some f, p) with
        | some w =>
          have hnone : htLookup s1.hashTable (some f, p) = none :=
            htLookup_none_of_sub c7 hl
          rw [hl1] at hnone
          exact Option.noConfusion hnone
        | none =>
          rw [readPage_miss_ok_fill s f p s1 v hl hab hpd hl1]
          refine InvFull_after_fill c6 c8 (by rw [← c1] at c5; exact c5) hl1
            (c9 h) ?_ ?_ rfl rfl (fillState_bufDescTable s1 v f p) rfl
          · intro e he
            obtain ⟨hn, hb⟩ := h.2.2 e (c7 e he)
            refine ⟨hn, ?_⟩
            show e.1.2 < filePages s1.nextPageId (e.1.1.getD 0)
            rw [c3]
            exact hb
          · show p < filePages s1.nextPageId f
            exact hpd
      · rw [readPage_miss_ok_nodisk s f p s1 v hl hab hpd] at hni
        exact absurd rfl hni

theorem unPinPage_inv (s : BufState) (f p : Nat) (md : Bool) (h : Inv s) :
    Inv (unPinPage s f p md).1 := by
  cases hl : htLookup s.hashTable (some f, p) with
  | none =>
    rw [unPinPage_miss s f p md hl]
    exact h
  | some frameNo =>
    have hm := htLookup_mem _ _ _ hl
    have hval := (h.2.2.2.1 _ hm).2.1
    have h1 : Inv (unpinState s frameNo md) := Inv_unpinState h frameNo md hval
    have hval1 : ((unpinState s frameNo md).getDesc frameNo).valid = true := by
      rw [unpinState_getDesc]
      by_cases hc : md = true ∧ frameNo = frameNo ∧ frameNo < s.bufDescTable.length
      · rw [if_pos hc]
        exact hval
      · rw [if_neg hc]
        exact hval
    by_cases hp0 : ((unpinState s frameNo md).getDesc frameNo).pinCnt = 0
    · rw [unPinPage_zero s f p md frameNo hl hp0]
      exact h1
    · rw [unPinPage_dec s f p md frameNo hl hp0]
      exact Inv_setDesc_preserve h1 frameNo _ rfl rfl rfl
        (fun hc => by simp [hval1] at hc)

theorem unPinPage_invFull (s : BufState) (f p : Nat) (md : Bool) (h : InvFull s) :
    InvFull (unPinPage s f p md).1 := by
  cases hl : htLookup s.hashTable (some f, p) with
  | none =>
    rw [unPinPage_miss s f p md hl]
    exact h
  | some frameNo =>
    have hm := htLookup_mem _ _ _ hl
    have hval := (h.1.2.2.2.1 _ hm).2.1
    have h1 : InvFull (unpinState s frameNo md) := InvFull_unpinState h frameNo md hval
    have hval1 : ((unpinState s frameNo md).getDesc frameNo).valid = true := by
      rw [unpinState_getDesc]
      by_cases hc : md = true ∧ frameNo = frameNo ∧ frameNo < s.bufDescTable.length
      · rw [if_pos hc]
        exact hval
      · rw [if_neg hc]
        exact hval
    by_cases hp0 : ((unpinState s frameNo md).getDesc frameNo).pinCnt = 0
    · rw [unPinPage_zero s f p md frameNo hl hp0]
      exact h1
    · rw [unPinPage_dec s f p md frameNo hl hp0]
      exact InvFull_setDesc_preserve h1 frameNo _ rfl rfl rfl
        (fun hc => by simp [hval1] at hc)

theorem disposePage_inv (s : BufState) (f p : Nat) (h : Inv s) :
    Inv (disposePage s f p).1 := by
  cases hl : htLookup s.hashTable (some f, p) with
  | none =>
    rw [disposePage_miss s f p hl]
    exact h
  | some frameNum =>
    rw [disposePage_hit s f p frameNum hl]
    have hm := htLookup_mem _ _ _ hl
    obtain ⟨hbound, hval, hf2, hpg⟩ := h.2.2.2.1 _ hm
    refine Inv_clear_remove h frameNum rfl rfl rfl ?_
    show htRemove s.hashTable (some f, p) =
      htRemove s.hashTable ((s.getDesc frameNum).file, (s.getDesc frameNum).pageNo)
    rw [hf2, hpg]

theorem disposePage_invFull (s : BufState) (f p : Nat) (h : InvFull s) :
    InvFull (disposePage s f p).1 := by
  cases hl : htLookup s.hashTable (some f, p) with
  | none =>
    rw [disposePage_miss s f p hl]
    exact h
  | some frameNum =>
    rw [disposePage_hit s f p frameNum hl]
    have hm := htLookup_mem _ _ _ hl
    obtain ⟨hbound, hval, hf2, hpg⟩ := h.1.2.2.2.1 _ hm
    refine InvFull_clear_remove h frameNum hval hbound rfl rfl rfl ?_ rfl
    show htRemove s.hashTable (some f, p) =
      htRemove s.hashTable ((s.getDesc frameNum).file, (s.getDesc frameNum).pageNo)
    rw [hf2, hpg]

theorem allocPage_inv (s : BufState) (f : Nat) (h : Inv s) :
    Inv (allocPage s f).1 := by
  have h0 : Inv { s with nextPageId := bumpFilePages s.nextPageId f } :=
    ⟨h.1, h.2.1, h.2.2.1, h.2.2.2.1, h.2.2.2.2⟩
  rcases hab : allocBuf { s with nextPageId := bumpFilePages s.nextPageId f }
    with ⟨s1, r⟩
  cases r with
  | error e =>
    rw [allocPage_alloc_err s f s1 e hab]
    exact Inv_of_stableFrom h0 (allocBuf_error_spec hab)
  | ok v =>
    obtain ⟨c1, c2, c3, c4, c5, c6, c7, c8, c9⟩ := allocBuf_ok_spec h0 hab
    cases hl1 : htLookup s1.hashTable (some f, filePages s.nextPageId f) with
    | some w =>
      rw [allocPage_dup s f s1 v w hab hl1]
      exact c6
    | none =>
      rw [allocPage_fill s f s1 v hab hl1]
      exact Inv_after_fill c6 c8 (by rw [← c1] at c5; exact c5) rfl rfl
        (fillState_bufDescTable s1 v f (filePages s.nextPageId f)) rfl

theorem allocPage_invFull (s : BufState) (f : Nat) (h : InvFull s) :
    InvFull (allocPage s f).1 := by
  have h0 : InvFull { s with nextPageId := bumpFilePages s.nextPageId f } :=
    InvFull_bump h f
  rcases hab : allocBuf { s with nextPageId := bumpFilePages s.nextPageId f }
    with ⟨s1, r⟩
  cases r with
  | error e =>
    rw [allocPage_alloc_err s f s1 e hab]
    exact InvFull_of_stableFrom h0 (allocBuf_error_spec hab)
  | ok v =>
    obtain ⟨c1, c2, c3, c4, c5, c6, c7, c8, c9⟩ := allocBuf_ok_spec h0.1 hab
    cases hl1 : htLookup s1.hashTable (some f, filePages s.nextPageId f) with
    | some w =>
      have hm := htLookup_mem _ _ _ hl1
      obtain ⟨hn, hb⟩ := h.2.2 _ (c7 _ hm)
      have hb2 : filePages s.nextPageId f < filePages s.nextPageId f := hb
      exact absurd hb2 (lt_irrefl _)
    | none =>
      rw [allocPage_fill s f s1 v hab hl1]
      refine InvFull_after_fill c6 c8 (by rw [← c1] at c5; exact c5) hl1
        (c9 h0) ?_ ?_ rfl rfl
        (fillState_bufDescTable s1 v f (filePages s.nextPageId f)) rfl
      · intro e he
        obtain ⟨hn, hb⟩ := h0.2.2 e (c7 e he)
        refine ⟨hn, ?_⟩
        show e.1.2 < filePages s1.nextPageId (e.1.1.getD 0)
        rw [c3]
        exact hb
      · show filePages s.nextPageId f < filePages s1.nextPageId f
        rw [c3]
        show filePages s.nextPageId f < filePages (bumpFilePages s.nextPageId f) f
        rw [filePages_bump]
        simp

theorem flushStep_inv (f : Nat) (s : BufState) (i : Nat) (h : Inv s) :
    Inv (flushStep f s i).1 := by
  by_cases hg : (s.getDesc i).file = some f ∧ (s.getDesc i).valid = true
  · have h1 : Inv (flushWriteBack s i) := Inv_flushWriteBack h i
    by_cases hp : ((flushWriteBack s i).getDesc i).pinCnt ≠ 0
    · rw [flushStep_pinned f s i hg hp]
      exact h1
    · cases hlk : htLookup (flushWriteBack s i).hashTable
        (some f, ((flushWriteBack s i).getDesc i).pageNo) with
      | none =>
        rw [flushStep_notfound f s i hg hp hlk]
        exact h1
      | some w =>
        rw [flushStep_clear f s i w hg hp hlk]
        have hfile1 : ((flushWriteBack s i).getDesc i).file = some f := by
          rw [flushWriteBack_getDesc]
          by_cases hc : (s.getDesc i).dirty = true ∧ i = i ∧ i < s.bufDescTable.length
          · rw [if_pos hc]
            exact hg.1
          · rw [if_neg hc]
            exact hg.1
        refine Inv_clear_remove h1 i rfl rfl rfl ?_
        rw [hfile1]
        rfl
  · rw [flushStep_skip f s i hg]
    exact h

theorem flushStep_invFull (f : Nat) (s : BufState) (i : Nat) (h : InvFull s) :
    InvFull (flushStep f s i).1 := by
  by_cases hg : (s.getDesc i).file = some f ∧ (s.getDesc i).valid = true
  · have h1 : InvFull (flushWriteBack s i) := InvFull_flushWriteBack h i
    by_cases hp : ((flushWriteBack s i).getDesc i).pinCnt ≠ 0
    · rw [flushStep_pinned f s i hg hp]
      exact h1
    · cases hlk : htLookup (flushWriteBack s i).hashTable
        (some f, ((flushWriteBack s i).getDesc i).pageNo) with
      | none =>
        rw [flushStep_notfound f s i hg hp hlk]
        exact h1
      | some w =>
        rw [flushStep_clear f s i w hg hp hlk]
        have hval1 : ((flushWriteBack s i).getDesc i).valid = true := by
          rw [flushWriteBack_getDesc]
          by_cases hc : (s.getDesc i).dirty = true ∧ i = i ∧ i < s.bufDescTable.length
          · rw [if_pos hc]
            exact hg.2
          · rw [if_neg hc]
            exact hg.2
        have hfile1 : ((flushWriteBack s i).getDesc i).file = some f := by
          rw [flushWriteBack_getDesc]
          by_cases hc : (s.getDesc i).dirty = true ∧ i = i ∧ i < s.bufDescTable.length
          · rw [if_pos hc]
            exact hg.1
          · rw [if_neg hc]
            exact hg.1
        have hbound1 : i < (flushWriteBack s i).numBufs := by
          rw [flushWriteBack_numBufs]
          by_contra hcon
          have hge : s.bufDescTable.length ≤ i := by
            rw [h.1.2.1]
            omega
          have hdef : s.getDesc i = defaultDesc := by
            unfold BufState.getDesc
            exact List.getD_eq_default _ _ hge
          rw [hdef] at hg
          exact Option.noConfusion hg.1
        refine InvFull_clear_remove h1 i hval1 hbound1 rfl rfl rfl ?_ rfl
        rw [hfile1]
        rfl
  · rw [flushStep_skip f s i hg]
    exact h

theorem flushLoop_inv (f : Nat) :
    ∀ (n : Nat) (s : BufState) (i : Nat), Inv s → Inv (flushLoop f s i n).1
  | 0, s, i, h => h
  | n + 1, s, i, h => by
    simp only [flushLoop]
    rcases hstep : flushStep f s i with ⟨s1, r⟩
    have h1 : Inv s1 := by
      have hx := flushStep_inv f s i h
      rw [hstep] at hx
      exact hx
    cases r with
    | error e =>
      simp only [hstep]
      exact h1
    | ok u =>
      simp only [hstep]
      by_cases hbb : (s1.getDesc i).file = some f ∧ (s1.getDesc i).valid = false
      · rw [if_pos hbb]
        exact h1
      · rw [if_neg hbb]
        exact flushLoop_inv f n s1 (i + 1) h1

theorem flushLoop_invFull (f : Nat) :
    ∀ (n : Nat) (s : BufState) (i : Nat), InvFull s → InvFull (flushLoop f s i n).1
  | 0, s, i, h => h
  | n + 1, s, i, h => by
    simp only [flushLoop]
    rcases hstep : flushStep f s i with ⟨s1, r⟩
    have h1 : InvFull s1 := by
      have hx := flushStep_invFull f s i h
      rw [hstep] at hx
      exact hx
    cases r with
    | error e =>
      simp only [hstep]
      exact h1
    | ok u =>
      simp only [hstep]
      by_cases hbb : (s1.getDesc i).file = some f ∧ (s1.getDesc i).valid = false
      · rw [if_pos hbb]
        exact h1
      · rw [if_neg hbb]
        exact flushLoop_invFull f n s1 (i + 1) h1

theorem flushFile_inv (s : BufState) (f : Nat) (h : Inv s) :
    Inv (flushFile s f).1 :=
  flushLoop_inv f s.numBufs s 0 h

theorem flushFile_invFull (s : BufState) (f : Nat) (h : InvFull s) :
    InvFull (flushFile s f).1 :=
  flushLoop_invFull f s.numBufs s 0 h

theorem applyOp_inv (s : BufState) (op : Op) (h : Inv s) : Inv (applyOp s op).1 := by
  cases op with
  | readPage f p => exact readPage_inv s f p h
  | unPinPage f p md => exact unPinPage_inv s f p md h
  | allocPage f => exact allocPage_inv s f h
  | disposePage f p => exact disposePage_inv s f p h
  | flushFile f => exact flushFile_inv s f h

theorem applyOp_invFull (s : BufState) (op : Op) (h : InvFull s)
    (hni : (applyOp s op).2 ≠ .error .invalidPage) : InvFull (applyOp s op).1 := by
  cases op with
  | readPage f p =>
    refine readPage_invFull s f p h ?_
    intro hc
    apply hni
    show ((readPage s f p).2.map fun _ => ()) = .error .invalidPage
    rw [hc]
    rfl
  | unPinPage f p md => exact unPinPage_invFull s f p md h
  | allocPage f => exact allocPage_invFull s f h
  | disposePage f p => exact disposePage_invFull s f p h
  | flushFile f => exact flushFile_invFull s f h

theorem InvFull_init (n : Nat) (hn : 0 < n) : InvFull (BufMgrInit n) := by
  refine ⟨⟨hn, mkTable_length 0 n, ?_, ?_, ?_⟩, ?_, ?_⟩
  · show n - 1 < n
    omega
  · intro e he
    exact absurd he (List.not_mem_nil e)
  · intro i hi hv
    have hg : (BufMgrInit n).getDesc i = { defaultDesc with frameNo := 0 + i } :=
      mkTable_getD n 0 i defaultDesc hi
    rw [hg]
    exact ⟨rfl, rfl, rfl, rfl⟩
  · intro i hi hv
    have hg : (BufMgrInit n).getDesc i = { defaultDesc with frameNo := 0 + i } :=
      mkTable_getD n 0 i defaultDesc hi
    rw [hg] at hv
    exact absurd hv (by simp [defaultDesc])
  · intro e he
    exact absurd he (List.not_mem_nil e)

theorem execOps_inv : ∀ (ops : List Op) (s : BufState), Inv s → Inv (execOps s ops)
  | [], _, h => h
  | op :: ops, s, h => execOps_inv ops (applyOp s op).1 (applyOp_inv s op h)

theorem execOps_invFull :
    ∀ (ops : List Op) (s : BufState), InvFull s → goodRun s ops = true →
      InvFull (execOps s ops)
  | [], _, h, _ => h
  | op :: ops, s, h, hg => by
    have hg2 : notInvalidPage (applyOp s op).2 = true ∧
        goodRun (applyOp s op).1 ops = true := by
      simpa [goodRun, Bool.and_eq_true] using hg
    refine execOps_invFull ops (applyOp s op).1 (applyOp_invFull s op h ?_) hg2.2
    intro hc
    have hx := hg2.1
    rw [hc] at hx
    simp [notInvalidPage] at hx

theorem flushLoop_pinned_of_exists (f : Nat) :
    ∀ (n : Nat) (s : BufState) (i : Nat), InvFull s →
      (∃ j, i ≤ j ∧ j < i + n ∧ (s.getDesc j).file = some f ∧
        (s.getDesc j).valid = true ∧ (s.getDesc j).pinCnt ≠ 0) →
      ∃ pn fn s1, flushLoop f s i n = (s1, .error (.pagePinned f pn fn)) ∧
        s1.numBufs = s.numBufs ∧
        (∃ tl, s1.writeLog = s.writeLog ++ tl) ∧
        ∃ k, k < s1.numBufs ∧ (s1.getDesc k).valid = true ∧
          (s1.getDesc k).file = some f ∧ (s1.getDesc k).pinCnt ≠ 0 ∧
          (s1.getDesc k).dirty = false ∧ (s1.getDesc k).pageNo = pn
  | 0, s, i, _, hex => by
    obtain ⟨j, h1, h2, _⟩ := hex
    omega
  | n + 1, s, i, h, hex => by
    obtain ⟨j, hij, hjn, hjf, hjv, hjp⟩ := hex
    by_cases hg : (s.getDesc i).file = some f ∧ (s.getDesc i).valid = true
    · have hib : i < s.bufDescTable.length := by
        by_contra hcon
        have hge : s.bufDescTable.length ≤ i := by omega
        have hdef : s.getDesc i = defaultDesc := by
          unfold BufState.getDesc
          exact List.getD_eq_default _ _ hge
        rw [hdef] at hg
        exact Option.noConfusion hg.1
      have hval1 : ((flushWriteBack s i).getDesc i).valid = true := by
        rw [flushWriteBack_getDesc]
        by_cases hc : (s.getDesc i).dirty = true ∧ i = i ∧ i < s.bufDescTable.length
        · rw [if_pos hc]
          exact hg.2
        · rw [if_neg hc]
          exact hg.2
      have hfile1 : ((flushWriteBack s i).getDesc i).file = some f := by
        rw [flushWriteBack_getDesc]
        by_cases hc : (s.getDesc i).dirty = true ∧ i = i ∧ i < s.bufDescTable.length
        · rw [if_pos hc]
          exact hg.1
        · rw [if_neg hc]
          exact hg.1
      by_cases hp : ((flushWriteBack s i).getDesc i).pinCnt ≠ 0
      · -- the scan stops here with PagePinned
        have hloop : flushLoop f s i (n + 1) =
            (flushWriteBack s i,
              .error (.pagePinned f ((flushWriteBack s i).getDesc i).pageNo
                ((flushWriteBack s i).getDesc i).frameNo)) := by
          simp only [flushLoop, flushStep_pinned f s i hg hp]
        refine ⟨((flushWriteBack s i).getDesc i).pageNo,
          ((flushWriteBack s i).getDesc i).frameNo, flushWriteBack s i, hloop,
          by simp, ?_, ?_⟩
        · by_cases hd : (s.getDesc i).dirty = true
          · exact ⟨[((s.getDesc i).file, (s.getDesc i).pageNo)],
              by rw [flushWriteBack_writeLog, if_pos hd]⟩
          · exact ⟨[], by rw [flushWriteBack_writeLog, if_neg hd, List.append_nil]⟩
        · refine ⟨i, ?_, hval1, hfile1, hp, ?_, rfl⟩
          · rw [flushWriteBack_numBufs, ← h.1.2.1]
            exact hib
          · rw [flushWriteBack_getDesc]
            by_cases hc : (s.getDesc i).dirty = true ∧ i = i ∧ i < s.bufDescTable.length
            · rw [if_pos hc]
            · rw [if_neg hc]
              by_cases hd : (s.getDesc i).dirty = true
              · exact absurd ⟨hd, rfl, hib⟩ hc
              · revert hd
                cases (s.getDesc i).dirty <;> simp
      · -- frame i is flushed and cleared; the pinned frame j lies further on
        have hji : j ≠ i := by
          intro hje
          subst hje
          apply hp
          rw [flushWriteBack_getDesc]
          by_cases hc : (s.getDesc j).dirty = true ∧ j = j ∧ j < s.bufDescTable.length
          · rw [if_pos hc]
            exact hjp
          · rw [if_neg hc]
            exact hjp
        have hfull1 : InvFull (flushWriteBack s i) := InvFull_flushWriteBack h i
        have hibn : i < (flushWriteBack s i).numBufs := by
          rw [flushWriteBack_numBufs, ← h.1.2.1]
          exact hib
        have hlk : htLookup (flushWriteBack s i).hashTable
            (some f, ((flushWriteBack s i).getDesc i).pageNo) = some i := by
          have h4 := hfull1.2.1 i hibn hval1
          rw [hfile1] at h4
          exact h4
        have hd2 : ((clearAndRemove (flushWriteBack s i) i
            (some f, ((flushWriteBack s i).getDesc i).pageNo)).getDesc i).file = none := by
          rw [clearAndRemove_getDesc]
          by_cases hc : i = i ∧ i < (flushWriteBack s i).bufDescTable.length
          · rw [if_pos hc]
            rfl
          · exact absurd ⟨rfl, by rw [flushWriteBack_length]; exact hib⟩ hc
        have hbb : ¬ (((clearAndRemove (flushWriteBack s i) i
            (some f, ((flushWriteBack s i).getDesc i).pageNo)).getDesc i).file = some f ∧
            ((clearAndRemove (flushWriteBack s i) i
              (some f, ((flushWriteBack s i).getDesc i).pageNo)).getDesc i).valid = false) := by
          intro hcc
          rw [hd2] at hcc
          exact Option.noConfusion hcc.1
        have hloop : flushLoop f s i (n + 1) =
            flushLoop f (clearAndRemove (flushWriteBack s i) i
              (some f, ((flushWriteBack s i).getDesc i).pageNo)) (i + 1) n := by
          simp only [flushLoop, flushStep_clear f s i i hg hp hlk]
          rw [if_neg hbb]
        have hfull2 : InvFull (clearAndRemove (flushWriteBack s i) i
            (some f, ((flushWriteBack s i).getDesc i).pageNo)) := by
          have hx := flushStep_invFull f s i h
          rw [flushStep_clear f s i i hg hp hlk] at hx
          exact hx
        have hdescj : (clearAndRemove (flushWriteBack s i) i
            (some f, ((flushWriteBack s i).getDesc i).pageNo)).getDesc j = s.getDesc j := by
          rw [clearAndRemove_getDesc, if_neg (fun hc => hji hc.1)]
          rw [flushWriteBack_getDesc, if_neg (fun hc => hji hc.2.1)]
        obtain ⟨pn, fn, s1, heq, hnum, ⟨tl, hwl⟩, k, hkb, hkv, hkf, hkp, hkd, hkpn⟩ :=
          flushLoop_pinned_of_exists f n (clearAndRemove (flushWriteBack s i) i
            (some f, ((flushWriteBack s i).getDesc i).pageNo)) (i + 1) hfull2
            ⟨j, by omega, by omega, by rw [hdescj]; exact hjf,
              by rw [hdescj]; exact hjv, by rw [hdescj]; exact hjp⟩
        refine ⟨pn, fn, s1, by rw [hloop]; exact heq, by rw [hnum]; simp, ?_,
          k, hkb, hkv, hkf, hkp, hkd, hkpn⟩
        rw [clearAndRemove_writeLog] at hwl
        by_cases hd : (s.getDesc i).dirty = true
        · refine ⟨((s.getDesc i).file, (s.getDesc i).pageNo) :: tl, ?_⟩
          rw [hwl, flushWriteBack_writeLog, if_pos hd]
          simp
        · exact ⟨tl, by rw [hwl, flushWriteBack_writeLog, if_neg hd]⟩
    · -- frame i does not belong to the file: the scan moves on
      have hji : j ≠ i := by
        intro hje
        subst hje
        exact hg ⟨hjf, hjv⟩
      have hbb : ¬ ((s.getDesc i).file = some f ∧ (s.getDesc i).valid = false) := by
        intro hcc
        obtain ⟨_, _, _, hfn⟩ := Inv_invalid_clean h.1 i hcc.2
        rw [hfn] at hcc
        exact Option.noConfusion hcc.1
      have hloop : flushLoop f s i (n + 1) = flushLoop f s (i + 1) n := by
        simp only [flushLoop, flushStep_skip f s i hg]
        rw [if_neg hbb]
      rw [hloop]
      exact flushLoop_pinned_of_exists f n s (i + 1) h
        ⟨j, by omega, by omega, hjf, hjv, hjp⟩

/-! Concrete states reached by short public-operation runs from a fresh
manager, used as inputs of the witnesses and counterexamples. -/

def exampleTwoPinned : BufState :=
  execOps (BufMgrInit 2) [Op.allocPage 1, Op.allocPage 1]

def exampleOnePinned : BufState :=
  execOps (BufMgrInit 1) [Op.allocPage 1]

def exampleOneUnpinned : BufState :=
  execOps (BufMgrInit 1) [Op.allocPage 1, Op.unPinPage 1 0 false]

def exampleDirtyPinned : BufState :=
  execOps (BufMgrInit 1) [Op.allocPage 1, Op.unPinPage 1 0 true, Op.readPage 1 0]

def exampleGoodRunState : BufState :=
  execOps (BufMgrInit 1) [Op.allocPage 1, Op.unPinPage 1 0 false, Op.readPage 1 0]

def exampleBadReadState : BufState :=
  execOps (BufMgrInit 1) [Op.allocPage 1, Op.unPinPage 1 0 false, Op.readPage 2 7]

/-- Claim C1, amended: for every operation sequence from a fresh manager in
which no readPage call fails its disk read (goodRun), after the sequence the
valid frames and the hash-table entries are in 1:1 correspondence: every
entry points at a valid in-range frame holding exactly the entry's key, and
every valid frame's key looks up to exactly that frame. -/
theorem c1_bijection_goodRun (n : Nat) (ops : List Op) (hn : 0 < n)
    (hg : goodRun (BufMgrInit n) ops = true) :
    (∀ e ∈ (execOps (BufMgrInit n) ops).hashTable,
      e.2 < (execOps (BufMgrInit n) ops).numBufs ∧
      ((execOps (BufMgrInit n) ops).getDesc e.2).valid = true ∧
      ((execOps (BufMgrInit n) ops).getDesc e.2).file = e.1.1 ∧
      ((execOps (BufMgrInit n) ops).getDesc e.2).pageNo = e.1.2) ∧
    (∀ i, i < (execOps (BufMgrInit n) ops).numBufs →
      ((execOps (BufMgrInit n) ops).getDesc i).valid = true →
      htLookup (execOps (BufMgrInit n) ops).hashTable
        (((execOps (BufMgrInit n) ops).getDesc i).file,
          ((execOps (BufMgrInit n) ops).getDesc i).pageNo) = some i) := by
  have h := execOps_invFull ops (BufMgrInit n) (InvFull_init n hn) hg
  exact ⟨h.1.2.2.2.1, h.2.1⟩

/-- Witness for C1 at a concrete good run of three operations. -/
theorem c1_witness :
    (∀ e ∈ exampleGoodRunState.hashTable,
      e.2 < exampleGoodRunState.numBufs ∧
      (exampleGoodRunState.getDesc e.2).valid = true ∧
      (exampleGoodRunState.getDesc e.2).file = e.1.1 ∧
      (exampleGoodRunState.getDesc e.2).pageNo = e.1.2) ∧
    (∀ i, i < exampleGoodRunState.numBufs →
      (exampleGoodRunState.getDesc i).valid = true →
      htLookup exampleGoodRunState.hashTable
        ((exampleGoodRunState.getDesc i).file,
          (exampleGoodRunState.getDesc i).pageNo) = some i) :=
  c1_bijection_goodRun 1 [Op.allocPage 1, Op.unPinPage 1 0 false, Op.readPage 1 0]
    (by decide) (by decide)

/-- Counterexample to C1 as stated: after the run allocPage, unPinPage,
readPage of an absent page (file 2 page 7, never allocated), frame 0 is
still valid but the hash table is empty, so the valid frame has no index
entry: the 1:1 correspondence fails after an operation of the sequence. -/
theorem c1_counterexample :
    (exampleBadReadState.getDesc 0).valid = true ∧
    exampleBadReadState.hashTable = [] ∧
    ¬ (∀ i, i < exampleBadReadState.numBufs →
      (exampleBadReadState.getDesc i).valid = true →
      htLookup exampleBadReadState.hashTable
        ((exampleBadReadState.getDesc i).file,
          (exampleBadReadState.getDesc i).pageNo) = some i) := by
  refine ⟨by decide, by decide, ?_⟩
  intro hall
  have := hall 0 (by decide) (by decide)
  revert this
  decide

/-- Claim C2, amended: when a readPage miss hits allocator exhaustion, the
C++ catch swallows the BufferExceededException: the call returns normally
with no page instead of propagating the failure, and while no index entry or
descriptor is set, the failed sweep may already have cleared refbits (and
moved the clock hand). -/
theorem c2_readPage_swallows_exhaustion (s : BufState) (f p : Nat) (s1 : BufState)
    (hl : htLookup s.hashTable (some f, p) = none)
    (hab : allocBuf s = (s1, .error .bufferExceeded)) :
    readPage s f p = (s1, .ok none) ∧
    s1.hashTable = s.hashTable ∧
    s1.writeLog = s.writeLog ∧
    (∀ i, sameExceptRef (s.getDesc i) (s1.getDesc i)) := by
  obtain ⟨n1, l1, t1, p1, w1, d1, k1, g1⟩ := allocBuf_error_spec hab
  exact ⟨readPage_miss_exceeded s f p s1 hl hab, t1, w1, g1⟩

/-- Witness for C2: reading an uncached page with both frames pinned. -/
theorem c2_witness :
    readPage exampleTwoPinned 9 9 = ((allocBuf exampleTwoPinned).1, .ok none) :=
  (c2_readPage_swallows_exhaustion exampleTwoPinned 9 9
    (allocBuf exampleTwoPinned).1 (by decide) (by decide)).1

/-- Counterexample to C2 as stated: with both frames pinned, readPage of an
uncached page returns ok (the BufferExceededException is not propagated),
and frame 0's refbit was mutated from true to false by the failed sweep. -/
theorem c2_counterexample :
    (readPage exampleTwoPinned 9 9).2 = .ok none ∧
    (exampleTwoPinned.getDesc 0).refbit = true ∧
    ((readPage exampleTwoPinned 9 9).1.getDesc 0).refbit = false := by
  decide

/-- Claim C3, amended: when allocBuf fails with BufferExceededException, the
hash table, the file counters, both event logs and every descriptor's
frameNo, file, pageNo, valid, pinCnt and dirty fields are unchanged, but
refbits may have been cleared (never set) and the clock hand moves. -/
theorem c3_allocBuf_failure_mutates_only_refbits (s s1 : BufState)
    (hab : allocBuf s = (s1, .error .bufferExceeded)) :
    s1.hashTable = s.hashTable ∧
    s1.nextPageId = s.nextPageId ∧
    s1.writeLog = s.writeLog ∧
    s1.deleteLog = s.deleteLog ∧
    (∀ i, sameExceptRef (s.getDesc i) (s1.getDesc i)) := by
  obtain ⟨n1, l1, t1, p1, w1, d1, k1, g1⟩ := allocBuf_error_spec hab
  exact ⟨t1, p1, w1, d1, g1⟩

/-- Witness for C3 at the two-frames-both-pinned state. -/
theorem c3_witness :
    (allocBuf exampleTwoPinned).1.hashTable = exampleTwoPinned.hashTable ∧
    sameExceptRef (exampleTwoPinned.getDesc 0)
      ((allocBuf exampleTwoPinned).1.getDesc 0) :=
  ⟨(c3_allocBuf_failure_mutates_only_refbits exampleTwoPinned
      (allocBuf exampleTwoPinned).1 (by decide)).1,
    (c3_allocBuf_failure_mutates_only_refbits exampleTwoPinned
      (allocBuf exampleTwoPinned).1 (by decide)).2.2.2.2 0⟩

/-- Counterexample to C3 as stated: with both frames pinned and both refbits
set, the failed sweep throws BufferExceededException but clears both
refbits, so the frame descriptors are not unchanged. -/
theorem c3_counterexample :
    (allocBuf exampleTwoPinned).2 = .error .bufferExceeded ∧
    (exampleTwoPinned.getDesc 0).refbit = true ∧
    ((allocBuf exampleTwoPinned).1.getDesc 0).refbit = false := by
  decide

/-- Claim C4 (code bug): allocBuf selects the valid unpinned victim frame 0
and returns it WITHOUT clearing its descriptor: afterwards the frame is
still marked valid and still owned by file 1, its old hash entry removed.
The Clear() of buffer.cpp line 151 sits after the loop whose only exit path
throws, so it is dead code on every selection path. -/
theorem c4_allocBuf_returns_victim_not_cleared :
    (allocBuf exampleOneUnpinned).2 = .ok 0 ∧
    ((allocBuf exampleOneUnpinned).1.getDesc 0).valid = true ∧
    ((allocBuf exampleOneUnpinned).1.getDesc 0).file = some 1 ∧
    (allocBuf exampleOneUnpinned).1.hashTable = [] := by
  decide

/-- Claim C5, amended: flushing a file that owns a dirty still-pinned frame
fails with PagePinnedException, but only after the dirty frame has been
written back: the offending frame ends the call valid, owned, pinned, with
its dirty bit CLEARED (the write happened and is recorded; nothing already
logged is lost). -/
theorem c5_flush_pinned_writes_back (s : BufState) (f : Nat) (h : InvFull s)
    (hex : ∃ j, j < s.numBufs ∧ (s.getDesc j).file = some f ∧
      (s.getDesc j).valid = true ∧ (s.getDesc j).dirty = true ∧
      (s.getDesc j).pinCnt ≠ 0) :
    ∃ pn fn, (flushFile s f).2 = .error (.pagePinned f pn fn) ∧
      ∃ k, k < s.numBufs ∧ ((flushFile s f).1.getDesc k).valid = true ∧
        ((flushFile s f).1.getDesc k).file = some f ∧
        ((flushFile s f).1.getDesc k).pinCnt ≠ 0 ∧
        ((flushFile s f).1.getDesc k).dirty = false ∧
        ((flushFile s f).1.getDesc k).pageNo = pn ∧
        ∃ tl, (flushFile s f).1.writeLog = s.writeLog ++ tl := by
  obtain ⟨j, hj, hjf, hjv, hjd, hjp⟩ := hex
  obtain ⟨pn, fn, s1, heq, hnum, hwl, k, hkb, hkv, hkf, hkp, hkd, hkpn⟩ :=
    flushLoop_pinned_of_exists f s.numBufs s 0 h
      ⟨j, Nat.zero_le j, by omega, hjf, hjv, hjp⟩
  have hfe : flushFile s f = (s1, .error (.pagePinned f pn fn)) := heq
  refine ⟨pn, fn, by rw [hfe], k, ?_, ?_, ?_, ?_, ?_, ?_, ?_⟩
  · rw [← hnum] at hj ⊢
    exact hkb
  · rw [hfe]
    exact hkv
  · rw [hfe]
    exact hkf
  · rw [hfe]
    exact hkp
  · rw [hfe]
    exact hkd
  · rw [hfe]
    exact hkpn
  · obtain ⟨tl, hw⟩ := hwl
    exact ⟨tl, by rw [hfe]; exact hw⟩

/-- Witness for C5 at a one-frame manager holding a dirty pinned page. -/
theorem c5_witness :
    ∃ pn fn, (flushFile exampleDirtyPinned 1).2 = .error (.pagePinned 1 pn fn) ∧
      ∃ k, k < exampleDirtyPinned.numBufs ∧
        ((flushFile exampleDirtyPinned 1).1.getDesc k).valid = true ∧
        ((flushFile exampleDirtyPinned 1).1.getDesc k).file = some 1 ∧
        ((flushFile exampleDirtyPinned 1).1.getDesc k).pinCnt ≠ 0 ∧
        ((flushFile exampleDirtyPinned 1).1.getDesc k).dirty = false ∧
        ((flushFile exampleDirtyPinned 1).1.getDesc k).pageNo = pn ∧
        ∃ tl, (flushFile exampleDirtyPinned 1).1.writeLog =
          exampleDirtyPinned.writeLog ++ tl :=
  c5_flush_pinned_writes_back exampleDirtyPinned 1 (by decide) (by decide)

/-- Counterexample to C5 as stated: flushing file 1 whose only page is dirty
and pinned does fail with PagePinnedException, but the page's dirty bit does
NOT remain set: it was written back (the write appears in the log) and the
dirty bit is false after the failure. -/
theorem c5_counterexample :
    (flushFile exampleDirtyPinned 1).2 = .error (.pagePinned 1 0 0) ∧
    (exampleDirtyPinned.getDesc 0).dirty = true ∧
    ((flushFile exampleDirtyPinned 1).1.getDesc 0).dirty = false ∧
    (flushFile exampleDirtyPinned 1).1.writeLog = [(some 1, 0)] := by
  decide

/-- Claim C6, amended: unpinning a cached page whose pin count is already 0
fails with PageNotPinnedException and leaves the pin count, valid flag,
refbit, owner, page id, other frames and the hash table unchanged — but the
dirty bit is set BEFORE the pin check, so with markDirty = true the failing
call does set the dirty bit. -/
theorem c6_unpin_zero_sets_dirty_then_fails (s : BufState) (f p : Nat)
    (md : Bool) (i : Nat)
    (hl : htLookup s.hashTable (some f, p) = some i)
    (hlen : i < s.bufDescTable.length)
    (hpin : (s.getDesc i).pinCnt = 0) :
    unPinPage s f p md = (unpinState s i md, .error (.pageNotPinned f p i)) ∧
    ((unpinState s i md).getDesc i).pinCnt = 0 ∧
    ((unpinState s i md).getDesc i).dirty = ((s.getDesc i).dirty || md) ∧
    ((unpinState s i md).getDesc i).valid = (s.getDesc i).valid ∧
    ((unpinState s i md).getDesc i).refbit = (s.getDesc i).refbit ∧
    ((unpinState s i md).getDesc i).file = (s.getDesc i).file ∧
    ((unpinState s i md).getDesc i).pageNo = (s.getDesc i).pageNo ∧
    (∀ j, j ≠ i → (unpinState s i md).getDesc j = s.getDesc j) ∧
    (unpinState s i md).hashTable = s.hashTable := by
  have hpin1 : ((unpinState s i md).getDesc i).pinCnt = 0 := by
    rw [unpinState_getDesc]
    by_cases hc : md = true ∧ i = i ∧ i < s.bufDescTable.length
    · rw [if_pos hc]
      exact hpin
    · rw [if_neg hc]
      exact hpin
  refine ⟨unPinPage_zero s f p md i hl hpin1, hpin1, ?_, ?_, ?_, ?_, ?_, ?_, by simp⟩
  · rw [unpinState_getDesc]
    by_cases hmd : md = true
    · rw [if_pos ⟨hmd, rfl, hlen⟩, hmd]
      simp
    · rw [if_neg (fun hc => hmd hc.1)]
      have hmd2 : md = false := by
        revert hmd
        cases md <;> simp
      rw [hmd2]
      simp
  · rw [unpinState_getDesc]
    by_cases hc : md = true ∧ i = i ∧ i < s.bufDescTable.length
    · rw [if_pos hc]
    · rw [if_neg hc]
  · rw [unpinState_getDesc]
    by_cases hc : md = true ∧ i = i ∧ i < s.bufDescTable.length
    · rw [if_pos hc]
    · rw [if_neg hc]
  · rw [unpinState_getDesc]
    by_cases hc : md = true ∧ i = i ∧ i < s.bufDescTable.length
    · rw [if_pos hc]
    · rw [if_neg hc]
  · rw [unpinState_getDesc]
    by_cases hc : md = true ∧ i = i ∧ i < s.bufDescTable.length
    · rw [if_pos hc]
    · rw [if_neg hc]
  · intro j hj
    rw [unpinState_getDesc, if_neg (fun hc => hj hc.2.1)]

/-- Witness for C6: second unpin with markDirty on an already-unpinned page. -/
theorem c6_witness :
    ((unpinState exampleOneUnpinned 0 true).getDesc 0).dirty =
      ((exampleOneUnpinned.getDesc 0).dirty || true) :=
  (c6_unpin_zero_sets_dirty_then_fails exampleOneUnpinned 1 0 true 0
    (by decide) (by decide) (by decide)).2.2.1

/-- Counterexample to C6 as stated: unpinning the clean cached page whose
pin count is 0 with markDirty = true fails with PageNotPinnedException, yet
the frame's dirty bit flips from false to true on this failing path. -/
theorem c6_counterexample :
    (unPinPage exampleOneUnpinned 1 0 true).2 = .error (.pageNotPinned 1 0 0) ∧
    (exampleOneUnpinned.getDesc 0).dirty = false ∧
    ((unPinPage exampleOneUnpinned 1 0 true).1.getDesc 0).dirty = true := by
  decide

/-- Claim C7: after every sequence of public operations on a freshly
constructed manager with at least one frame, every frame whose valid flag is
false has pin count 0, a clear dirty bit and a clear refbit. -/
theorem c7_invalid_frames_are_clean (n : Nat) (ops : List Op) (i : Nat)
    (hn : 0 < n)
    (hv : ((execOps (BufMgrInit n) ops).getDesc i).valid = false) :
    ((execOps (BufMgrInit n) ops).getDesc i).pinCnt = 0 ∧
    ((execOps (BufMgrInit n) ops).getDesc i).dirty = false ∧
    ((execOps (BufMgrInit n) ops).getDesc i).refbit = false := by
  have h := execOps_inv ops (BufMgrInit n) (InvFull_init n hn).1
  obtain ⟨c1, c2, c3, _⟩ := Inv_invalid_clean h i hv
  exact ⟨c1, c2, c3⟩

/-- Witness for C7 at the fresh one-frame manager. -/
theorem c7_witness :
    ((execOps (BufMgrInit 1) []).getDesc 0).pinCnt = 0 ∧
    ((execOps (BufMgrInit 1) []).getDesc 0).dirty = false ∧
    ((execOps (BufMgrInit 1) []).getDesc 0).refbit = false :=
  c7_invalid_frames_are_clean 1 [] 0 (by decide) (by decide)

/-- Claim C8: disposePage always succeeds; it appends exactly one deletePage
call for (file, pageNo) to the collaborator log; when the page is cached at
an in-range frame the frame's descriptor ends fully cleared and the index
entry removed; when it is not cached the frame table and index are untouched. -/
theorem c8_disposePage_contract (s : BufState) (f p : Nat) :
    (disposePage s f p).2 = .ok () ∧
    (disposePage s f p).1.deleteLog = s.deleteLog ++ [(f, p)] ∧
    (∀ i, htLookup s.hashTable (some f, p) = some i →
      htLookup (disposePage s f p).1.hashTable (some f, p) = none ∧
      (i < s.bufDescTable.length →
        ((disposePage s f p).1.getDesc i).valid = false ∧
        ((disposePage s f p).1.getDesc i).pinCnt = 0 ∧
        ((disposePage s f p).1.getDesc i).dirty = false ∧
        ((disposePage s f p).1.getDesc i).refbit = false ∧
        ((disposePage s f p).1.getDesc i).file = none)) ∧
    (htLookup s.hashTable (some f, p) = none →
      (disposePage s f p).1.bufDescTable = s.bufDescTable ∧
      (disposePage s f p).1.hashTable = s.hashTable) := by
  cases hl : htLookup s.hashTable (some f, p) with
  | none =>
    rw [disposePage_miss s f p hl]
    refine ⟨rfl, rfl, ?_, fun _ => ⟨rfl, rfl⟩⟩
    intro i hi
    exact Option.noConfusion hi
  | some frameNum =>
    rw [disposePage_hit s f p frameNum hl]
    refine ⟨rfl, by simp, ?_, ?_⟩
    · intro i hi
      cases Option.some.inj hi
      constructor
      · show htLookup (htRemove s.hashTable (some f, p)) (some f, p) = none
        exact htLookup_remove_self s.hashTable (some f, p)
      · intro hlen
        show ((clearAndRemove s frameNum (some f, p)).getDesc frameNum).valid = false ∧
          ((clearAndRemove s frameNum (some f, p)).getDesc frameNum).pinCnt = 0 ∧
          ((clearAndRemove s frameNum (some f, p)).getDesc frameNum).dirty = false ∧
          ((clearAndRemove s frameNum (some f, p)).getDesc frameNum).refbit = false ∧
          ((clearAndRemove s frameNum (some f, p)).getDesc frameNum).file = none
        rw [clearAndRemove_getDesc, if_pos ⟨rfl, hlen⟩]
        exact ⟨rfl, rfl, rfl, rfl, rfl⟩
    · intro hn
      exact Option.noConfusion hn

/-- Witness for C8 at a dirty pinned cached page (frame 0). -/
theorem c8_witness :
    (disposePage exampleDirtyPinned 1 0).2 = .ok () ∧
    (disposePage exampleDirtyPinned 1 0).1.deleteLog =
      exampleDirtyPinned.deleteLog ++ [(1, 0)] ∧
    htLookup (disposePage exampleDirtyPinned 1 0).1.hashTable (some 1, 0) = none :=
  ⟨(c8_disposePage_contract exampleDirtyPinned 1 0).1,
    (c8_disposePage_contract exampleDirtyPinned 1 0).2.1,
    ((c8_disposePage_contract exampleDirtyPinned 1 0).2.2.1 0 (by decide)).1⟩

/-- Claim C9, amended: when allocPage fails because the clock sweep finds no
frame, the BufferExceededException propagates to the caller; the on-disk
allocation already happened (the file's page counter grew by one) and is not
undone (no deletePage is issued); no index entry is inserted and no
descriptor is Set, though refbits may have been cleared by the failed sweep
and the clock hand advanced. -/
theorem c9_allocPage_failure (s : BufState) (f : Nat) (s1 : BufState)
    (hab : allocPage s f = (s1, .error .bufferExceeded)) :
    s1.hashTable = s.hashTable ∧
    filePages s1.nextPageId f = filePages s.nextPageId f + 1 ∧
    s1.deleteLog = s.deleteLog ∧
    s1.writeLog = s.writeLog ∧
    (∀ i, sameExceptRef (s.getDesc i) (s1.getDesc i)) := by
  rcases hab0 : allocBuf { s with nextPageId := bumpFilePages s.nextPageId f }
    with ⟨s1x, r⟩
  cases r with
  | error e =>
    have heq := allocPage_alloc_err s f s1x e hab0
    rw [heq] at hab
    obtain ⟨h1, h2⟩ := Prod.mk.inj hab
    subst h1
    cases Except.error.inj h2
    obtain ⟨n1, l1, t1, p1, w1, d1, k1, g1⟩ := allocBuf_error_spec hab0
    refine ⟨t1, ?_, d1, w1, g1⟩
    rw [p1]
    show filePages (bumpFilePages s.nextPageId f) f = filePages s.nextPageId f + 1
    rw [filePages_bump]
    simp
  | ok v =>
    cases hl1 : htLookup s1x.hashTable (some f, filePages s.nextPageId f) with
    | some w =>
      have heq := allocPage_dup s f s1x v w hab0 hl1
      rw [heq] at hab
      exact absurd (Prod.mk.inj hab).2 (by simp)
    | none =>
      have heq := allocPage_fill s f s1x v hab0 hl1
      rw [heq] at hab
      exact absurd (Prod.mk.inj hab).2 (by simp)

/-- Witness for C9 at the two-frames-both-pinned state. -/
theorem c9_witness :
    filePages (allocPage exampleTwoPinned 1).1.nextPageId 1 =
      filePages exampleTwoPinned.nextPageId 1 + 1 :=
  (c9_allocPage_failure exampleTwoPinned 1 (allocPage exampleTwoPinned 1).1
    (by decide)).2.1

/-- Counterexample to C9 as stated: the failed allocPage call does mutate
descriptors: frame 0's refbit is cleared by the failed sweep. -/
theorem c9_counterexample :
    (allocPage exampleTwoPinned 1).2 = .error .bufferExceeded ∧
    (exampleTwoPinned.getDesc 0).refbit = true ∧
    ((allocPage exampleTwoPinned 1).1.getDesc 0).refbit = false := by
  decide

/-- Claim C10: disposePage ignores the pin count: a cached page whose frame
is pinned is still cleared, its entry removed, and the file collaborator
told to delete the page, with no error raised. -/
theorem c10_disposePage_ignores_pins (s : BufState) (f p i : Nat)
    (hl : htLookup s.hashTable (some f, p) = some i)
    (hlen : i < s.bufDescTable.length)
    (_hpin : 0 < (s.getDesc i).pinCnt) :
    (disposePage s f p).2 = .ok () ∧
    ((disposePage s f p).1.getDesc i).valid = false ∧
    ((disposePage s f p).1.getDesc i).pinCnt = 0 ∧
    htLookup (disposePage s f p).1.hashTable (some f, p) = none ∧
    (disposePage s f p).1.deleteLog = s.deleteLog ++ [(f, p)] := by
  rw [disposePage_hit s f p i hl]
  refine ⟨rfl, ?_, ?_, ?_, by simp⟩
  · show ((clearAndRemove s i (some f, p)).getDesc i).valid = false
    rw [clearAndRemove_getDesc, if_pos ⟨rfl, hlen⟩]
    rfl
  · show ((clearAndRemove s i (some f, p)).getDesc i).pinCnt = 0
    rw [clearAndRemove_getDesc, if_pos ⟨rfl, hlen⟩]
    rfl
  · show htLookup (htRemove s.hashTable (some f, p)) (some f, p) = none
    exact htLookup_remove_self s.hashTable (some f, p)

/-- Witness for C10: disposing the pinned cached page of a one-frame pool. -/
theorem c10_witness :
    (disposePage exampleOnePinned 1 0).2 = .ok () ∧
    ((disposePage exampleOnePinned 1 0).1.getDesc 0).valid = false ∧
    ((disposePage exampleOnePinned 1 0).1.getDesc 0).pinCnt = 0 ∧
    htLookup (disposePage exampleOnePinned 1 0).1.hashTable (some 1, 0) = none ∧
    (disposePage exampleOnePinned 1 0).1.deleteLog =
      exampleOnePinned.deleteLog ++ [(1, 0)] :=
  c10_disposePage_ignores_pins exampleOnePinned 1 0 0 (by decide) (by decide)
    (by decide)

end BadgerDB
